import Mathlib

/-!
Shallow embedding of `pyunifiprotect/data/base.py` (the object-mapping layer
of the pyunifiprotect client library) and proofs about its conversion engine.

The embedding models:
* the per-class schema data (`__fields__`, `_get_unifi_remaps`, the
  `unifi_dict` cleanup overrides, the `ProtectDeviceModel.unifi_dict_to_dict`
  pre-coercion hook) as a `ClassDesc` value;
* Python runtime values (JSON scalars, dicts, lists, live
  `ProtectBaseObject` instances, the `ProtectApiClient` handle) as the
  `Value` inductive;
* Python dicts as insertion-ordered association lists `NDict` with
  Python-faithful `get`/`pop`/`setitem` operations;
* the process-wide `is_debug()` flag as an explicit `debug : Bool` argument.

Helpers from `pyunifiprotect.utils` (`to_snake_case`, `process_datetime`,
`convert_unifi_data`, `serialize_unifi_obj`) are not part of the reviewed
source tree; they are modelled from the specification and marked as such.
-/

set_option autoImplicit false

namespace PyUFP

/-- Pydantic field shapes: `SHAPE_SINGLETON`-like default, `SHAPE_LIST`, `SHAPE_DICT`. -/
inductive Shape where
  | single
  | list
  | dict
deriving DecidableEq, Repr

/-- Scalar kinds of declared field types that the generic per-field coercion
(`convert_unifi_data`) distinguishes: plain JSON-safe types, `datetime`,
`timedelta`, `IPv4Address`. -/
inductive SKind where
  | plain
  | sdatetime
  | stimedelta
  | sipv4
deriving DecidableEq, Repr

mutual
/-- The declared type of a field (`field.type_`): a scalar, a
`ProtectBaseObject` subclass (so `issubclass(field.type_, ProtectBaseObject)`
holds), or a type on which `issubclass` raises `TypeError`. -/
inductive FType where
  | scalar (k : SKind)
  | protect (c : ClassDesc)
  | raising
/-- The per-class schema data of a `ProtectBaseObject` subclass:
`__fields__` in declaration order (name, pydantic shape, declared type),
the merged `_get_unifi_remaps()` table in iteration order, the chain of
`unifi_dict` cleanup steps contributed by subclass overrides (applied
superclass-first; `(key, true)` deletes the key unconditionally,
`(key, false)` deletes it only when its value is null), and whether the
class inherits `ProtectDeviceModel.unifi_dict_to_dict`'s pre-coercion hook. -/
inductive ClassDesc where
  | mk (fields : List (String × Shape × FType)) (remaps : List (String × String))
      (cleanups : List (String × Bool)) (devHook : Bool)
end

/-- A Python runtime value as seen by this module: JSON scalars, native
scalar objects (`datetime` as epoch milliseconds, `timedelta` as
milliseconds, `IPv4Address` as its dotted string), dicts, lists,
live `ProtectBaseObject` instances (class, private `_api` attr, `__dict__`),
and the opaque `ProtectApiClient` handle. -/
inductive Value where
  | null
  | str (s : String)
  | int (n : Int)
  | bool (b : Bool)
  | datetime (ms : Int)
  | timedelta (ms : Int)
  | ipv4 (s : String)
  | dict (d : List (String × Value))
  | list (l : List Value)
  | obj (cls : ClassDesc) (api : Option Value) (attrs : List (String × Value))
  | apiRef (n : Nat)

/-- A Python dict with string keys, modelled as its insertion-ordered entry list. -/
abbrev NDict := List (String × Value)

namespace ClassDesc

def fieldsOf : ClassDesc → List (String × Shape × FType)
  | .mk fs _ _ _ => fs

def remapsOf : ClassDesc → List (String × String)
  | .mk _ rs _ _ => rs

def cleanupsOf : ClassDesc → List (String × Bool)
  | .mk _ _ cs _ => cs

def devHookOf : ClassDesc → Bool
  | .mk _ _ _ h => h

/-- The declared field names of the class (the keys of `cls.__fields__`). -/
def fieldNames (c : ClassDesc) : List String := c.fieldsOf.map (·.1)

/-- Look up a declared field by name. -/
def fieldOf (c : ClassDesc) (k : String) : Option (Shape × FType) :=
  (c.fieldsOf.find? (·.1 = k)).map (·.2)

end ClassDesc

/-! ## Python dict operations -/

namespace NDict

/-- `data.get(k)` / `data[k]`: value of the first entry with key `k`. -/
def get (d : NDict) (k : String) : Option Value :=
  (d.find? (·.1 = k)).map (·.2)

/-- `k in data`. -/
def mem (d : NDict) (k : String) : Bool :=
  d.any (·.1 = k)

/-- `data.pop(k)` / `del data[k]`: remove the entry with key `k`. -/
def pop (d : NDict) (k : String) : NDict :=
  d.filter (·.1 ≠ k)

/-- `data[k] = v`: replace in place when the key exists, else append. -/
def set (d : NDict) (k : String) (v : Value) : NDict :=
  if d.any (·.1 = k) then d.map (fun p => if p.1 = k then (k, v) else p)
  else d ++ [(k, v)]

/-- `list(data.keys())`. -/
def keys (d : NDict) : List String := d.map (·.1)

@[simp] theorem get_nil (k : String) : get [] k = none := rfl

@[simp] theorem get_cons (k0 : String) (v0 : Value) (d : NDict) (k : String) :
    get ((k0, v0) :: d) k = if k0 = k then some v0 else get d k := by
  by_cases h : k0 = k <;> simp [get, List.find?_cons, h]

@[simp] theorem mem_nil (k : String) : mem [] k = false := rfl

@[simp] theorem mem_cons (k0 : String) (v0 : Value) (d : NDict) (k : String) :
    mem ((k0, v0) :: d) k = (k0 = k || mem d k) := by
  by_cases h : k0 = k <;> simp [mem, h]

@[simp] theorem pop_nil (k : String) : pop [] k = [] := rfl

@[simp] theorem pop_cons (k0 : String) (v0 : Value) (d : NDict) (k : String) :
    pop ((k0, v0) :: d) k = if k0 = k then pop d k else (k0, v0) :: pop d k := by
  by_cases h : k0 = k <;> simp [pop, List.filter_cons, h]

@[simp] theorem set_nil (k : String) (v : Value) : set [] k v = [(k, v)] := rfl

theorem set_cons (k0 : String) (v0 : Value) (d : NDict) (k : String) (v : Value) :
    set ((k0, v0) :: d) k v =
      if k0 = k then (k, v) :: d.map (fun p => if p.1 = k then (k, v) else p)
      else (k0, v0) :: set d k v := by
  by_cases h : k0 = k
  · subst h
    simp [set]
  · by_cases ha : d.any (fun p => p.1 = k) <;> simp [set, h, ha]

theorem mem_eq_isSome (d : NDict) (k : String) : mem d k = (get d k).isSome := by
  induction d with
  | nil => rfl
  | cons p d ih =>
    obtain ⟨k0, v0⟩ := p
    by_cases h : k0 = k <;> simp [h, ih]

theorem get_eq_none_of_not_mem {d : NDict} {k : String} (h : mem d k = false) :
    get d k = none := by
  rcases hg : get d k with _ | v
  · rfl
  · rw [mem_eq_isSome, hg] at h
    cases h

theorem get_map_setentry (d : NDict) (k k2 : String) (v : Value) (h : k ≠ k2) :
    get (d.map (fun p => if p.1 = k then (k, v) else p)) k2 = get d k2 := by
  induction d with
  | nil => simp
  | cons p d ih =>
    obtain ⟨k0, v0⟩ := p
    by_cases h0 : k0 = k
    · subst h0
      simp [h, ih]
    · by_cases h2 : k0 = k2 <;> simp [h0, h2, ih, Ne.symm h]

@[simp] theorem get_set_self (d : NDict) (k : String) (v : Value) :
    get (set d k v) k = some v := by
  induction d with
  | nil => simp
  | cons p d ih =>
    obtain ⟨k0, v0⟩ := p
    by_cases h : k0 = k
    · subst h
      rw [set_cons]
      simp
    · rw [set_cons]
      simp [h, ih]

@[simp] theorem get_set_ne (d : NDict) (k k2 : String) (v : Value) (h : k ≠ k2) :
    get (set d k v) k2 = get d k2 := by
  induction d with
  | nil => simp [h, Ne.symm h]
  | cons p d ih =>
    obtain ⟨k0, v0⟩ := p
    rw [set_cons]
    by_cases h0 : k0 = k
    · subst h0
      simp [h, Ne.symm h, get_map_setentry d k0 k2 v h]
    · by_cases h2 : k0 = k2 <;> simp [h0, h2, ih, Ne.symm h]

@[simp] theorem get_pop_ne (d : NDict) (k k2 : String) (h : k ≠ k2) :
    get (pop d k) k2 = get d k2 := by
  induction d with
  | nil => simp
  | cons p d ih =>
    obtain ⟨k0, v0⟩ := p
    by_cases h0 : k0 = k <;> by_cases h2 : k0 = k2 <;> simp_all

@[simp] theorem get_pop_self (d : NDict) (k : String) : get (pop d k) k = none := by
  induction d with
  | nil => simp
  | cons p d ih =>
    obtain ⟨k0, v0⟩ := p
    by_cases h0 : k0 = k <;> simp_all

@[simp] theorem mem_set (d : NDict) (k k2 : String) (v : Value) :
    mem (set d k v) k2 = (k = k2 || mem d k2) := by
  by_cases h : k = k2
  · subst h
    simp [mem_eq_isSome]
  · simp [mem_eq_isSome, get_set_ne d k k2 v h, h]

@[simp] theorem mem_pop (d : NDict) (k k2 : String) :
    mem (pop d k) k2 = (decide (k ≠ k2) && mem d k2) := by
  by_cases h : k = k2
  · subst h
    simp [mem_eq_isSome]
  · simp [mem_eq_isSome, get_pop_ne d k k2 h, h]

end NDict

/-! ## Helpers from `pyunifiprotect.utils`, modelled from the spec -/

/-- Modelled from the spec: `to_snake_case` from `pyunifiprotect.utils`
(not in the reviewed sources). Spec §4.2 step 3: "Mechanically convert every
remaining key from camelCase to snake_case": each uppercase letter becomes
an underscore followed by its lowercase form. -/
def to_snake_case (s : String) : String :=
  String.mk (s.toList.foldr (fun c acc => if c.isUpper then '_' :: c.toLower :: acc else c :: acc) [])

/-- The character walk of `to_camel_case`: an underscore followed by a
letter is replaced by that letter uppercased. -/
def camelChars : List Char → List Char
  | [] => []
  | '_' :: c :: rest => c.toUpper :: camelChars rest
  | c :: rest => c :: camelChars rest

/-- Inverse direction used by serialization (spec glossary: "Native format:
… snake_case-keyed"; `unifi_dict` docstring: "Converts snake_case to
camelCase"): each underscore is dropped and the letter after it
capitalized. -/
def to_camel_case (s : String) : String :=
  String.mk (camelChars s.toList)

/-- Python `int(...)` on the payload values that reach it here (integers and
numeric strings). -/
def intOfValue : Value → Int
  | .int n => n
  | .str s => (s.toInt?).getD 0
  | _ => 0

/-- Modelled from the spec: `process_datetime` from `pyunifiprotect.utils`
(not in the reviewed sources). Spec §4.2: "a 'last seen' timestamp field is
parsed from an epoch-millisecond integer into an absolute timestamp". -/
def process_datetime (v : Value) : Value :=
  match v with
  | .int ms => .datetime ms
  | v => v

/-- Modelled from the spec: `convert_unifi_data` from `pyunifiprotect.utils`
(not in the reviewed sources). Spec §4.2 step 4: "apply per-field scalar
coercions … to every retained key": vendor scalar encodings become native
values according to the field's declared type (epoch-millisecond integers
for datetime fields, millisecond integers for duration fields, strings for
IP-address fields); anything already native, and every field whose declared
type needs no coercion, passes through unchanged. -/
def convert_unifi_data (v : Value) (t : FType) : Value :=
  match t, v with
  | .scalar .sdatetime, .int ms => .datetime ms
  | .scalar .stimedelta, .int ms => .timedelta ms
  | .scalar .sipv4, .str s => .ipv4 s
  | _, v => v

mutual

/-- Modelled from the spec: `serialize_unifi_obj` from `pyunifiprotect.utils`
(not in the reviewed sources). Spec §4.4: "apply: scalar normalization
(dates, enums, IP addresses, etc. to JSON-safe primitives)"; `unifi_dict`
docstring: "Converts snake_case to camelCase". Recursively normalizes native
scalars to JSON-safe primitives and camelCases every dict key. Live objects
do not reach this point on the paths modelled here. -/
def serialize_unifi_obj : Value → Value
  | .datetime ms => .int ms
  | .timedelta ms => .int ms
  | .ipv4 s => .str s
  | .dict d => .dict (serializeEntries d)
  | .list l => .list (serializeItems l)
  | v => v

/-- The dict-entry traversal of `serialize_unifi_obj`. -/
def serializeEntries : List (String × Value) → List (String × Value)
  | [] => []
  | (k, v) :: rest => (to_camel_case k, serialize_unifi_obj v) :: serializeEntries rest

/-- The list-item traversal of `serialize_unifi_obj`. -/
def serializeItems : List Value → List Value
  | [] => []
  | v :: rest => serialize_unifi_obj v :: serializeItems rest

end

/-! ## Schema Introspector (`_set_protect_subtypes`, base.py lines 129–174) -/

/-- The three class-level caches `_protect_objs`, `_protect_lists`,
`_protect_dicts` (in that order). -/
abbrev SubMaps :=
  List (String × ClassDesc) × List (String × ClassDesc) × List (String × ClassDesc)

/-- The body of the `_set_protect_subtypes` field loop (lines 137–147):

    try:
        if issubclass(field.type_, ProtectBaseObject):
            if field.shape == SHAPE_LIST:
                cls._protect_lists[name] = field.type_
            if field.shape == SHAPE_DICT:
                cls._protect_dicts[name] = field.type_
            else:
                cls._protect_objs[name] = field.type_
    except TypeError:
        pass

Note the second `if` is not an `elif`, so its `else` also fires for
`SHAPE_LIST` fields. -/
def spstStep (acc : SubMaps) (f : String × Shape × FType) : SubMaps :=
  let (objs, lists, dicts) := acc
  let (name, shape, ftype) := f
  match ftype with
  | .raising => (objs, lists, dicts)
  | .scalar _ => (objs, lists, dicts)
  | .protect k =>
    let lists := if shape = .list then lists ++ [(name, k)] else lists
    if shape = .dict then (objs, lists, dicts ++ [(name, k)])
    else (objs ++ [(name, k)], lists, dicts)

/-- `_set_protect_subtypes` (lines 129–147): classify the declared fields of
a class into single-object, list-of-object and dict-of-object caches. -/
def _set_protect_subtypes (fields : List (String × Shape × FType)) : SubMaps :=
  fields.foldl spstStep ([], [], [])

/-- `_get_protect_objs` (lines 149–156). The memoized class-level cache is
modelled by recomputation, which is deterministic and idempotent. -/
def _get_protect_objs (c : ClassDesc) : List (String × ClassDesc) :=
  (_set_protect_subtypes c.fieldsOf).1

/-- `_get_protect_lists` (lines 158–165). -/
def _get_protect_lists (c : ClassDesc) : List (String × ClassDesc) :=
  (_set_protect_subtypes c.fieldsOf).2.1

/-- `_get_protect_dicts` (lines 167–174). -/
def _get_protect_dicts (c : ClassDesc) : List (String × ClassDesc) :=
  (_set_protect_subtypes c.fieldsOf).2.2

/-- Every class recorded by the introspector comes from a `protect`-typed
entry of the field list (accumulator-generalized form). -/
theorem mem_spst_aux (fields : List (String × Shape × FType)) (acc : SubMaps)
    (n : String) (k : ClassDesc)
    (h : (n, k) ∈ (fields.foldl spstStep acc).1 ∨
         (n, k) ∈ (fields.foldl spstStep acc).2.1 ∨
         (n, k) ∈ (fields.foldl spstStep acc).2.2) :
    ((n, k) ∈ acc.1 ∨ (n, k) ∈ acc.2.1 ∨ (n, k) ∈ acc.2.2) ∨
      ∃ shape, (n, shape, FType.protect k) ∈ fields := by
  induction fields generalizing acc with
  | nil => exact Or.inl h
  | cons f rest ih =>
    simp only [List.foldl_cons] at h
    rcases ih (spstStep acc f) h with hacc | ⟨shape, hmem⟩
    · obtain ⟨n0, shape0, ftype0⟩ := f
      obtain ⟨objs, lists, dicts⟩ := acc
      match ftype0 with
      | .raising => exact Or.inl hacc
      | .scalar _ => exact Or.inl hacc
      | .protect k0 =>
        cases shape0 with
        | single =>
          simp only [spstStep, reduceCtorEq, reduceIte, List.mem_append, List.mem_singleton,
            Prod.mk.injEq] at hacc
          rcases hacc with (h1 | ⟨rfl, rfl⟩) | h1 | h1
          · exact Or.inl (Or.inl h1)
          · exact Or.inr ⟨_, List.mem_cons_self _ _⟩
          · exact Or.inl (Or.inr (Or.inl h1))
          · exact Or.inl (Or.inr (Or.inr h1))
        | list =>
          simp only [spstStep, reduceCtorEq, reduceIte, List.mem_append, List.mem_singleton,
            Prod.mk.injEq] at hacc
          rcases hacc with (h1 | ⟨rfl, rfl⟩) | (h1 | ⟨rfl, rfl⟩) | h1
          · exact Or.inl (Or.inl h1)
          · exact Or.inr ⟨_, List.mem_cons_self _ _⟩
          · exact Or.inl (Or.inr (Or.inl h1))
          · exact Or.inr ⟨_, List.mem_cons_self _ _⟩
          · exact Or.inl (Or.inr (Or.inr h1))
        | dict =>
          simp only [spstStep, reduceCtorEq, reduceIte, List.mem_append, List.mem_singleton,
            Prod.mk.injEq] at hacc
          rcases hacc with h1 | h1 | (h1 | ⟨rfl, rfl⟩)
          · exact Or.inl (Or.inl h1)
          · exact Or.inl (Or.inr (Or.inl h1))
          · exact Or.inl (Or.inr (Or.inr h1))
          · exact Or.inr ⟨_, List.mem_cons_self _ _⟩
    · exact Or.inr ⟨shape, List.mem_cons_of_mem _ hmem⟩

/-! ## Wire→Native conversion (`unifi_dict_to_dict`, base.py lines 210–259) -/

/-- `_get_api` (lines 176–182): `isinstance(cls, ProtectBaseObject)` is always
false for the class object itself (a type is not an instance), so the given
value is returned unchanged. -/
def _get_api (api : Option Value) : Option Value :=
  api

/-- `isinstance(v, timedelta)`. -/
def isTimedelta : Value → Bool
  | .timedelta _ => true
  | _ => false

/-- `v is None`. -/
def isNullV : Value → Bool
  | .null => true
  | _ => false

/-- `isinstance(v, dict)`. -/
def isDictV : Value → Bool
  | .dict _ => true
  | _ => false

/-- The body of `ProtectDeviceModel.unifi_dict_to_dict` (lines 421–428) that
runs before delegating to `super().unifi_dict_to_dict(data)`:

    if "lastSeen" in data:
        data["lastSeen"] = process_datetime(data, "lastSeen")
    if "upSince" in data and data["upSince"] is not None:
        data["upSince"] = process_datetime(data, "upSince")
    if "uptime" in data and data["uptime"] is not None and not isinstance(data["uptime"], timedelta):
        data["uptime"] = timedelta(milliseconds=int(data["uptime"]))

split into its three statements (`preLastSeen`, `preUpSince`, `preUptime`)
composed by `protect_device_model_pre`. This is the first statement. -/
def preLastSeen (data : NDict) : NDict :=
  if data.mem "lastSeen" then
    data.set "lastSeen" (process_datetime ((data.get "lastSeen").getD .null))
  else data

/-- Second statement of the hook (lines 425–426). -/
def preUpSince (data : NDict) : NDict :=
  if data.mem "upSince" && !isNullV ((data.get "upSince").getD .null) then
    data.set "upSince" (process_datetime ((data.get "upSince").getD .null))
  else data

/-- Third statement of the hook (lines 427–428). -/
def preUptime (data : NDict) : NDict :=
  if data.mem "uptime" && !isNullV ((data.get "uptime").getD .null) &&
      !isTimedelta ((data.get "uptime").getD .null) then
    data.set "uptime" (.timedelta (intOfValue ((data.get "uptime").getD .null)))
  else data

/-- The three statements in source order. -/
def protect_device_model_pre (data : NDict) : NDict :=
  preUptime (preUpSince (preLastSeen data))

mutual

/-- Nesting depth of a value (objects, dicts and lists all count one
level); used only to compute a sufficient recursion budget. -/
def vdepth : Value → Nat
  | .obj _ _ attrs => 1 + vdepthEntries attrs
  | .dict d => 1 + vdepthEntries d
  | .list l => 1 + vdepthItems l
  | _ => 0

def vdepthEntries : List (String × Value) → Nat
  | [] => 0
  | (_, v) :: rest => max (vdepth v) (vdepthEntries rest)

def vdepthItems : List Value → Nat
  | [] => 0
  | v :: rest => max (vdepth v) (vdepthItems rest)

end

/-- The remap loop (lines 227–229). -/
def applyRemaps (remaps : List (String × String)) (d : NDict) : NDict :=
  remaps.foldl
    (fun d fr =>
      if d.mem fr.1 then (d.pop fr.1).set fr.2 ((d.get fr.1).getD .null) else d)
    d

/-- The snake_case loop (lines 232–233). -/
def snakeLoop (d : NDict) : NDict :=
  d.keys.foldl
    (fun d k => (d.pop k).set (to_snake_case k) ((d.get k).getD .null))
    d

/-- The unknown-field-dropping and scalar-coercion loop (lines 237–244). -/
def dropLoop (c : ClassDesc) (d : NDict) : NDict :=
  d.foldl
    (fun d kv =>
      if kv.1 = "api" then d
      else
        match c.fieldOf kv.1 with
        | none => d.pop kv.1
        | some sft => d.set kv.1 (convert_unifi_data kv.2 sft.2))
    d

/-- The single-object cleaning loop (lines 247–249), abstracted over the
per-value cleaner. -/
def cleanObjsFold (f : ClassDesc → Value → Value)
    (pairs : List (String × ClassDesc)) (d : NDict) : NDict :=
  pairs.foldl
    (fun d nk =>
      if d.mem nk.1 then d.set nk.1 (f nk.2 ((d.get nk.1).getD .null)) else d)
    d

/-- The list-of-objects cleaning loop (lines 251–253). -/
def cleanListsFold (f : ClassDesc → List Value → List Value)
    (pairs : List (String × ClassDesc)) (d : NDict) : NDict :=
  pairs.foldl
    (fun d nk =>
      match d.get nk.1 with
      | some (.list items) => d.set nk.1 (.list (f nk.2 items))
      | _ => d)
    d

/-- The dict-of-objects cleaning loop (lines 255–257). -/
def cleanDictsFold (f : ClassDesc → List (String × Value) → List (String × Value))
    (pairs : List (String × ClassDesc)) (d : NDict) : NDict :=
  pairs.foldl
    (fun d nk =>
      match d.get nk.1 with
      | some (.dict entries) => d.set nk.1 (.dict (f nk.2 entries))
      | _ => d)
    d

/-- `_clean_protect_obj` (lines 184–190): inject the api reference into a
child dict and convert it with the child class (`convert` is
`klass.unifi_dict_to_dict`, passed in by the recursive definition below);
non-dict values pass through. -/
def _clean_protect_obj (convert : ClassDesc → NDict → NDict) (klass : ClassDesc)
    (api : Option Value) (v : Value) : Value :=
  match v with
  | .dict dd =>
    .dict (convert klass
      (match api with
       | some a => NDict.set dd "api" a
       | none => dd))
  | v => v

/-- `_clean_protect_obj_list` (lines 192–199): clean every element. -/
def _clean_protect_obj_list (convert : ClassDesc → NDict → NDict) (klass : ClassDesc)
    (api : Option Value) (items : List Value) : List Value :=
  items.map (_clean_protect_obj convert klass api)

/-- `_clean_protect_obj_dict` (lines 201–208): clean every value. -/
def _clean_protect_obj_dict (convert : ClassDesc → NDict → NDict) (klass : ClassDesc)
    (api : Option Value) (entries : List (String × Value)) : List (String × Value) :=
  entries.map (fun kv => (kv.1, _clean_protect_obj convert klass api kv.2))

/-- `unifi_dict_to_dict` (lines 210–259), with the virtual dispatch of the
`ProtectDeviceModel.unifi_dict_to_dict` override (lines 421–430) made
explicit: classes whose `devHookOf` is set run the scalar pre-coercions and
then the base implementation, exactly as `super().unifi_dict_to_dict(data)`
does. Each stage is one loop of the source function (see the stage
definitions above, which carry the source line numbers). The recursion into
child classes reads its arguments out of the working dict, so it is defined
on an explicit recursion budget `fuel`: one unit per nesting level of the
input, supplied by the `unifi_dict_to_dict` wrapper below, which the
recursion cannot exhaust (child cleaning only recurses into strictly nested
dicts). -/
def unifi_dict_to_dictF : Nat → Bool → ClassDesc → NDict → NDict
  | 0, _, _, data0 => data0
  | fuel + 1, debug, c, data0 =>
    let data := if c.devHookOf then protect_device_model_pre data0 else data0
    -- get the API client instance
    let api := _get_api (data.get "api")
    -- remap keys that will not be converted correctly by snake_case convert
    let data := applyRemaps c.remapsOf data
    -- convert to snake_case
    let data := snakeLoop data
    -- remove extra fields (skipped when running in debug mode)
    let data := if !debug then dropLoop c data else data
    -- clean child UFP objs
    let data := cleanObjsFold
      (fun k v => _clean_protect_obj (unifi_dict_to_dictF fuel debug) k api v)
      (_get_protect_objs c) data
    let data := cleanListsFold
      (fun k items => _clean_protect_obj_list (unifi_dict_to_dictF fuel debug) k api items)
      (_get_protect_lists c) data
    cleanDictsFold
      (fun k entries => _clean_protect_obj_dict (unifi_dict_to_dictF fuel debug) k api entries)
      (_get_protect_dicts c) data

/-- The public `unifi_dict_to_dict` entry point. -/
def unifi_dict_to_dict (debug : Bool) (c : ClassDesc) (data0 : NDict) : NDict :=
  unifi_dict_to_dictF (vdepthEntries data0 + 1) debug c data0

/-- `unifi_dict_to_dict` decomposed into its stages. -/
theorem unifi_dict_to_dict_stages (debug : Bool) (c : ClassDesc) (data0 : NDict) :
    unifi_dict_to_dict debug c data0 =
      (let data := if c.devHookOf then protect_device_model_pre data0 else data0
       let api := _get_api (data.get "api")
       let data := applyRemaps c.remapsOf data
       let data := snakeLoop data
       let data := if !debug then dropLoop c data else data
       let data := cleanObjsFold
         (fun k v =>
           _clean_protect_obj (unifi_dict_to_dictF (vdepthEntries data0) debug) k api v)
         (_get_protect_objs c) data
       let data := cleanListsFold
         (fun k items =>
           _clean_protect_obj_list (unifi_dict_to_dictF (vdepthEntries data0) debug) k api items)
         (_get_protect_lists c) data
       cleanDictsFold
         (fun k entries =>
           _clean_protect_obj_dict (unifi_dict_to_dictF (vdepthEntries data0) debug) k api entries)
         (_get_protect_dicts c) data) := rfl

/-! ## Per-stage lemmas -/

/-- Field names recorded in any introspector cache are declared field names. -/
theorem protect_name_mem_fieldNames {c : ClassDesc} {n : String} {k : ClassDesc}
    (h : (n, k) ∈ _get_protect_objs c ∨ (n, k) ∈ _get_protect_lists c ∨
         (n, k) ∈ _get_protect_dicts c) :
    n ∈ c.fieldNames := by
  rcases mem_spst_aux c.fieldsOf ([], [], []) n k h with habs | ⟨shape, hmem⟩
  · simp at habs
  · exact List.mem_map.2 ⟨(n, shape, FType.protect k), hmem, rfl⟩

theorem keys_set_of_mem {d : NDict} {k : String} (v : Value) (h : NDict.mem d k = true) :
    NDict.keys (NDict.set d k v) = NDict.keys d := by
  have : (d.map (fun p => if p.1 = k then (k, v) else p)).map (·.1) = d.map (·.1) := by
    rw [List.map_map]
    apply List.map_congr_left
    intro p _
    by_cases hp : p.1 = k <;> simp [hp]
  simp only [NDict.set, NDict.mem] at h ⊢
  rw [if_pos h]
  exact this

theorem get_ite_set_ne {c : Prop} [Decidable c] (d : NDict) (key K : String) (v : Value)
    (h : key ≠ K) :
    NDict.get (if c then d.set key v else d) K = d.get K := by
  split_ifs <;> simp [NDict.get_set_ne _ _ _ _ h]

theorem keys_ite_set_guard {c : Prop} [Decidable c] (d : NDict) (key : String) (v : Value)
    (himp : c → NDict.mem d key = true) :
    NDict.keys (if c then d.set key v else d) = d.keys := by
  split_ifs with hc
  · exact keys_set_of_mem v (himp hc)
  · rfl

/-- `protect_device_model_pre` only rewrites the values at `lastSeen`,
`upSince` and `uptime`; every other key keeps its value. -/
theorem pre_get_ne (d : NDict) (K : String) (h1 : K ≠ "lastSeen")
    (h2 : K ≠ "upSince") (h3 : K ≠ "uptime") :
    NDict.get (protect_device_model_pre d) K = NDict.get d K := by
  unfold protect_device_model_pre preUptime preUpSince preLastSeen
  rw [get_ite_set_ne _ _ _ _ (Ne.symm h3), get_ite_set_ne _ _ _ _ (Ne.symm h2),
    get_ite_set_ne _ _ _ _ (Ne.symm h1)]

/-- `protect_device_model_pre` never adds or removes keys (its assignments
are guarded by membership tests). -/
theorem keys_pre (d : NDict) :
    NDict.keys (protect_device_model_pre d) = NDict.keys d := by
  unfold protect_device_model_pre
  rw [show ∀ x : NDict, NDict.keys (preUptime x) = x.keys from fun x => by
      unfold preUptime
      exact keys_ite_set_guard _ _ _ (fun hc => by
        simp only [Bool.and_eq_true] at hc
        exact hc.1.1),
    show ∀ x : NDict, NDict.keys (preUpSince x) = x.keys from fun x => by
      unfold preUpSince
      exact keys_ite_set_guard _ _ _ (fun hc => by
        simp only [Bool.and_eq_true] at hc
        exact hc.1),
    show ∀ x : NDict, NDict.keys (preLastSeen x) = x.keys from fun x => by
      unfold preLastSeen
      exact keys_ite_set_guard _ _ _ (fun hc => hc)]

@[simp] theorem applyRemaps_nil (d : NDict) : applyRemaps [] d = d := rfl

theorem applyRemaps_cons (fr : String × String) (rest : List (String × String)) (d : NDict) :
    applyRemaps (fr :: rest) d =
      applyRemaps rest
        (if d.mem fr.1 then (d.pop fr.1).set fr.2 ((d.get fr.1).getD .null) else d) := rfl

/-- The remap loop does not touch a key that no remap reads or writes. -/
theorem applyRemaps_get_ne (remaps : List (String × String)) (d : NDict) (K : String)
    (h : ∀ fr ∈ remaps, fr.1 ≠ K ∧ fr.2 ≠ K) :
    NDict.get (applyRemaps remaps d) K = NDict.get d K := by
  induction remaps generalizing d with
  | nil => rfl
  | cons fr rest ih =>
    have hfr := h fr (List.mem_cons_self _ _)
    have hrest : ∀ fr2 ∈ rest, fr2.1 ≠ K ∧ fr2.2 ≠ K :=
      fun fr2 hm => h fr2 (List.mem_cons_of_mem _ hm)
    rw [applyRemaps_cons, ih _ hrest]
    by_cases hm : NDict.mem d fr.1 <;>
      simp [applyRemaps, hm, NDict.get_set_ne _ _ _ _ hfr.2,
        NDict.get_pop_ne _ _ _ hfr.1]

/-- Keys produced by the remap loop: either an original key or a remap
target. -/
theorem mem_applyRemaps (remaps : List (String × String)) (d : NDict) (K : String)
    (h : NDict.mem (applyRemaps remaps d) K = true) :
    NDict.mem d K = true ∨ ∃ fr ∈ remaps, fr.2 = K := by
  induction remaps generalizing d with
  | nil => exact Or.inl h
  | cons fr rest ih =>
    rw [applyRemaps_cons] at h
    rcases ih _ h with h1 | ⟨fr2, hm2, he2⟩
    · by_cases hm : NDict.mem d fr.1
      · simp only [hm, if_true, NDict.mem_set, NDict.mem_pop] at h1
        rcases Bool.or_eq_true_iff.1 h1 with he | hp
        · exact Or.inr ⟨fr, List.mem_cons_self _ _, by simpa using he⟩
        · exact Or.inl (Bool.and_eq_true_iff.1 hp).2
      · simp only [hm] at h1
        simp at h1
        exact Or.inl h1
    · exact Or.inr ⟨fr2, List.mem_cons_of_mem _ hm2, he2⟩

/-- The snake_case loop keeps the binding of a key `K` that is a fixed point
of `to_snake_case`, provided no other key collapses onto `K`. -/
theorem snakeFold_get_fixed (ks : List String) (acc : NDict) (K : String) (a : Value)
    (hfix : to_snake_case K = K)
    (hks : ∀ k ∈ ks, to_snake_case k = K → k = K)
    (ha : NDict.get acc K = some a) :
    NDict.get
      (ks.foldl (fun d k => (d.pop k).set (to_snake_case k) ((d.get k).getD .null)) acc)
      K = some a := by
  induction ks generalizing acc with
  | nil => exact ha
  | cons k rest ih =>
    refine ih _ (fun k2 hk2 => hks k2 (List.mem_cons_of_mem _ hk2)) ?_
    by_cases hk : k = K
    · subst hk
      show ((acc.pop k).set (to_snake_case k) ((acc.get k).getD .null)).get k = some a
      rw [hfix, ha]
      simp
    · have hsk : to_snake_case k ≠ K := fun he => hk (hks k (List.mem_cons_self _ _) he)
      show ((acc.pop k).set (to_snake_case k) ((acc.get k).getD .null)).get K = some a
      rw [NDict.get_set_ne _ _ _ _ hsk, NDict.get_pop_ne _ _ _ hk, ha]

theorem snakeLoop_get_fixed (d : NDict) (K : String) (a : Value)
    (hfix : to_snake_case K = K)
    (hks : ∀ k ∈ d.keys, to_snake_case k = K → k = K)
    (ha : NDict.get d K = some a) :
    NDict.get (snakeLoop d) K = some a :=
  snakeFold_get_fixed d.keys d K a hfix hks ha

/-- The drop loop never touches the `api` binding. -/
theorem dropFold_get_api (c : ClassDesc) (items : List (String × Value)) (acc : NDict) :
    NDict.get
      (items.foldl
        (fun d kv =>
          if kv.1 = "api" then d
          else
            match c.fieldOf kv.1 with
            | none => d.pop kv.1
            | some sft => d.set kv.1 (convert_unifi_data kv.2 sft.2))
        acc)
      "api" = NDict.get acc "api" := by
  induction items generalizing acc with
  | nil => rfl
  | cons kv rest ih =>
    rw [List.foldl_cons, ih]
    by_cases hk : kv.1 = "api"
    · rw [if_pos hk]
    · rw [if_neg hk]
      rcases c.fieldOf kv.1 with _ | sft <;>
        simp [NDict.get_set_ne _ _ _ _ hk, NDict.get_pop_ne _ _ _ hk]

theorem dropLoop_get_api (c : ClassDesc) (d : NDict) :
    NDict.get (dropLoop c d) "api" = NDict.get d "api" :=
  dropFold_get_api c d d

theorem mem_iff_keys (d : NDict) (k : String) :
    NDict.mem d k = true ↔ k ∈ d.keys := by
  simp [NDict.mem, NDict.keys, List.any_eq_true]

/-- The three child-cleaning loops only rewrite values at their recorded
field names. -/
theorem cleanObjsFold_get_ne (f : ClassDesc → Value → Value)
    (pairs : List (String × ClassDesc)) (d : NDict) (K : String)
    (h : ∀ p ∈ pairs, p.1 ≠ K) :
    NDict.get (cleanObjsFold f pairs d) K = NDict.get d K := by
  induction pairs generalizing d with
  | nil => rfl
  | cons p rest ih =>
    show NDict.get (cleanObjsFold f rest _) K = _
    rw [ih _ (fun q hq => h q (List.mem_cons_of_mem _ hq))]
    by_cases hm : NDict.mem d p.1 <;>
      simp [cleanObjsFold, hm, NDict.get_set_ne _ _ _ _ (h p (List.mem_cons_self _ _))]

theorem cleanListsFold_get_ne (f : ClassDesc → List Value → List Value)
    (pairs : List (String × ClassDesc)) (d : NDict) (K : String)
    (h : ∀ p ∈ pairs, p.1 ≠ K) :
    NDict.get (cleanListsFold f pairs d) K = NDict.get d K := by
  induction pairs generalizing d with
  | nil => rfl
  | cons p rest ih =>
    show NDict.get (cleanListsFold f rest _) K = _
    rw [ih _ (fun q hq => h q (List.mem_cons_of_mem _ hq))]
    rcases hg : NDict.get d p.1 with _ | v
    · simp [cleanListsFold, hg]
    · rcases v <;>
        simp [cleanListsFold, hg, NDict.get_set_ne _ _ _ _ (h p (List.mem_cons_self _ _))]

theorem cleanDictsFold_get_ne (f : ClassDesc → List (String × Value) → List (String × Value))
    (pairs : List (String × ClassDesc)) (d : NDict) (K : String)
    (h : ∀ p ∈ pairs, p.1 ≠ K) :
    NDict.get (cleanDictsFold f pairs d) K = NDict.get d K := by
  induction pairs generalizing d with
  | nil => rfl
  | cons p rest ih =>
    show NDict.get (cleanDictsFold f rest _) K = _
    rw [ih _ (fun q hq => h q (List.mem_cons_of_mem _ hq))]
    rcases hg : NDict.get d p.1 with _ | v
    · simp [cleanDictsFold, hg]
    · rcases v <;>
        simp [cleanDictsFold, hg, NDict.get_set_ne _ _ _ _ (h p (List.mem_cons_self _ _))]

/-! ## The concrete device hierarchy (base.py lines 383–530)

Pydantic collects `__fields__` in declaration order, superclass fields
first. `Optional[T]` fields have `field.type_ = T`; the
`Optional[Union[str, int]]` field has a `Union` as `field.type_`, on which
`issubclass` raises `TypeError` (hence `FType.raising`). Enum-typed fields
(`ModelType`, `StateType`) are carried as plain strings. Each class's
`remaps` merges its ancestors' tables as `_get_unifi_remaps` does, and
`cleanups` lists the `unifi_dict` post-processing deletions contributed by
the override chain, superclass-first. -/

/-- `WiredConnectionState` (lines 433–434). -/
def WiredConnectionState : ClassDesc :=
  .mk [("phy_rate", .single, .scalar .plain)] [] [] false

/-- `WirelessConnectionState` (lines 437–439). -/
def WirelessConnectionState : ClassDesc :=
  .mk [("signal_quality", .single, .scalar .plain),
       ("signal_strength", .single, .scalar .plain)] [] [] false

/-- `WifiConnectionState` (lines 442–446). -/
def WifiConnectionState : ClassDesc :=
  .mk [("signal_quality", .single, .scalar .plain),
       ("signal_strength", .single, .scalar .plain),
       ("phy_rate", .single, .scalar .plain),
       ("channel", .single, .scalar .plain),
       ("frequency", .single, .scalar .plain),
       ("ssid", .single, .scalar .plain)] [] [] false

/-- The fields of `ProtectDeviceModel` (lines 383–419): `ProtectModel.model`,
`ProtectModelWithId.id`, then its own declarations. -/
def protectDeviceModelFields : List (String × Shape × FType) :=
  [("model", .single, .scalar .plain),
   ("id", .single, .scalar .plain),
   ("name", .single, .scalar .plain),
   ("type", .single, .scalar .plain),
   ("mac", .single, .scalar .plain),
   ("host", .single, .scalar .sipv4),
   ("up_since", .single, .scalar .sdatetime),
   ("uptime", .single, .scalar .stimedelta),
   ("last_seen", .single, .scalar .sdatetime),
   ("hardware_revision", .single, .raising),
   ("firmware_version", .single, .scalar .plain),
   ("is_updating", .single, .scalar .plain),
   ("is_ssh_enabled", .single, .scalar .plain)]

/-- `ProtectDeviceModel` (lines 408–430): remap `modelKey → model` from
`ProtectModel`, the `modelKey`-if-null cleanup from `ProtectModel.unifi_dict`,
and the `unifi_dict_to_dict` scalar pre-coercion hook. -/
def ProtectDeviceModel : ClassDesc :=
  .mk protectDeviceModelFields [("modelKey", "model")] [("modelKey", false)] true

/-- The fields of `ProtectAdoptableDeviceModel` (lines 449–467). -/
def protectAdoptableFields : List (String × Shape × FType) :=
  protectDeviceModelFields ++
  [("state", .single, .scalar .plain),
   ("connection_host", .single, .scalar .sipv4),
   ("connected_since", .single, .scalar .sdatetime),
   ("latest_firmware_version", .single, .scalar .plain),
   ("firmware_build", .single, .scalar .plain),
   ("is_adopting", .single, .scalar .plain),
   ("is_adopted", .single, .scalar .plain),
   ("is_adopted_by_other", .single, .scalar .plain),
   ("is_provisioned", .single, .scalar .plain),
   ("is_rebooting", .single, .scalar .plain),
   ("can_adopt", .single, .scalar .plain),
   ("is_attempting_to_connect", .single, .scalar .plain),
   ("is_connected", .single, .scalar .plain),
   ("wired_connection_state", .single, .protect WiredConnectionState),
   ("wifi_connection_state", .single, .protect WifiConnectionState),
   ("bluetooth_connection_state", .single, .protect WirelessConnectionState),
   ("bridge_id", .single, .scalar .plain)]

/-- The `unifi_dict` cleanup chain of `ProtectAdoptableDeviceModel`
(lines 395–401 and 476–488), superclass-first. -/
def protectAdoptableCleanups : List (String × Bool) :=
  [("modelKey", false),
   ("wiredConnectionState", false),
   ("wifiConnectionState", false),
   ("bluetoothConnectionState", false),
   ("bridge", false)]

/-- `ProtectAdoptableDeviceModel` (lines 449–507): merged remap table
`{"modelKey": "model", "bridge": "bridgeId"}` (lines 472–474). -/
def ProtectAdoptableDeviceModel : ClassDesc :=
  .mk protectAdoptableFields [("modelKey", "model"), ("bridge", "bridgeId")]
    protectAdoptableCleanups true

/-- The fields of `ProtectMotionDeviceModel` (lines 510–515). -/
def protectMotionFields : List (String × Shape × FType) :=
  protectAdoptableFields ++
  [("last_motion", .single, .scalar .sdatetime),
   ("is_dark", .single, .scalar .plain),
   ("last_motion_event_id", .single, .scalar .plain)]

/-- `ProtectMotionDeviceModel` (lines 510–530): adds the unconditional
`lastMotionEventId` deletion to the `unifi_dict` cleanup chain
(lines 517–523). -/
def ProtectMotionDeviceModel : ClassDesc :=
  .mk protectMotionFields [("modelKey", "model"), ("bridge", "bridgeId")]
    (protectAdoptableCleanups ++ [("lastMotionEventId", true)]) true

/-! ## Native→Wire conversion (`unifi_dict`, base.py lines 261–345)

The recursion of `unifi_dict` (and of `construct` / `update_from_dict`)
reads the values it recurses on out of the working dict it is mutating, so
no structural measure on the arguments is available to Lean. The functions
are therefore defined with an explicit recursion budget (`fuel`) and the
public wrappers supply a budget computed from the nesting depth of the
input, which the actual recursion never exhausts (helpers recurse only into
strictly nested objects/dicts). Exhausted fuel returns a dummy value on a
path no wrapper invocation reaches. -/


mutual

/-- Pydantic `.dict()` value conversion: nested models become plain dicts,
recursively; private attrs (`_api`) are not part of the dump. -/
def dumpValue : Value → Value
  | .obj _ _ attrs => .dict (dumpEntries attrs)
  | .dict d => .dict (dumpEntries d)
  | .list l => .list (dumpItems l)
  | v => v

def dumpEntries : List (String × Value) → List (String × Value)
  | [] => []
  | (k, v) :: rest => (k, dumpValue v) :: dumpEntries rest

def dumpItems : List Value → List Value
  | [] => []
  | v :: rest => dumpValue v :: dumpItems rest

end

/-- `self.dict(exclude=…)`: dump the declared fields in order, skipping the
excluded ones (pydantic applies the exclusion set at the top level only). -/
def objDict (exclude : List String) (attrs : List (String × Value)) : NDict :=
  (attrs.filter (fun p => !(exclude.contains p.1))).map (fun p => (p.1, dumpValue p.2))

/-- `getattr(self, key)` on the modelled `__dict__`. -/
def getattrV (attrs : List (String × Value)) (key : String) : Value :=
  (NDict.get attrs key).getD .null

/-- The exclusion set computed at lines 319–321:

    excluded_fields = set(self._get_protect_objs().keys()) | set(self._get_protect_lists().keys())
    if exclude is not None:
        excluded_fields = excluded_fields | exclude

Note `_get_protect_dicts()` keys are NOT excluded. Sets are modelled as
lists; only membership is ever used. -/
def excluded_fields (cls : ClassDesc) (exclude : Option (List String)) : List String :=
  let excluded := (_get_protect_objs cls).map (·.1) ++ (_get_protect_lists cls).map (·.1)
  match exclude with
  | some ex => excluded ++ ex
  | none => excluded

/-- The subclass `unifi_dict` cleanup chain: each override, after calling
`super().unifi_dict(...)`, deletes its keys — unconditionally
(`lastMotionEventId`, lines 520–521) or when null (`modelKey` line 398,
connection-state/bridge keys lines 479–486). -/
def cleanupStep (d : NDict) (c : String × Bool) : NDict :=
  if c.2 then (if d.mem c.1 then d.pop c.1 else d)
  else (if d.mem c.1 && isNullV ((d.get c.1).getD .null) then d.pop c.1 else d)

/-- The cleanup chain is the fold of the deletion steps. -/
def applyCleanups (cs : List (String × Bool)) (d : NDict) : NDict :=
  cs.foldl cleanupStep d

/-- The reverse remap loop (lines 338–340): `data[to_key] = data.pop(from_key)`
for every `(to_key, from_key)` in `_get_unifi_remaps().items()`. -/
def applyRemapsReverse (remaps : List (String × String)) (d : NDict) : NDict :=
  remaps.foldl
    (fun d tf =>
      if d.mem tf.2 then (d.pop tf.2).set tf.1 ((d.get tf.2).getD .null) else d)
    d

/-- `serialize_unifi_obj` applied to the working dict (line 337). -/
def serializeNDict (d : NDict) : NDict :=
  serializeEntries d

/-- The shared shape of the three nested-serialization loops of
`unifi_dict` (lines 325–335):

    for key in self._get_protect_objs().keys():
        if use_obj or key in data:
            data[key] = self._unifi_dict_protect_obj(data, key, use_obj)

with `h` the corresponding `_unifi_dict_protect_obj*` helper applied to the
current working dict and key. -/
def unifiProtectLoop (h : NDict → String → Value) (use_obj : Bool)
    (pairs : List (String × ClassDesc)) (d : NDict) : NDict :=
  pairs.foldl
    (fun d nk => if use_obj || d.mem nk.1 then d.set nk.1 (h d nk.1) else d)
    d

mutual

/-- `unifi_dict` (lines 303–345) with the subclass override chain
(`ProtectModel`/`ProtectAdoptableDeviceModel`/`ProtectMotionDeviceModel`
cleanups) applied after the base body, as `super().unifi_dict(...)`
dispatch does. `fuel` is the recursion budget (see section comment). -/
def unifi_dictF : Nat → Value → Option NDict → Option (List String) → NDict
  | 0, _, _, _ => []
  | fuel + 1, .obj cls api attrs, dataOpt, exclude =>
    let use_obj := dataOpt.isNone
    let data : NDict :=
      match dataOpt with
      | none => objDict (excluded_fields cls exclude) attrs
      | some data => data
    let data := unifiProtectLoop
      (fun d k => _unifi_dict_protect_objF fuel attrs d k use_obj) use_obj
      (_get_protect_objs cls) data
    let data := unifiProtectLoop
      (fun d k => _unifi_dict_protect_obj_listF fuel attrs d k use_obj) use_obj
      (_get_protect_lists cls) data
    let data := unifiProtectLoop
      (fun d k => _unifi_dict_protect_obj_dictF fuel attrs d k use_obj) use_obj
      (_get_protect_dicts cls) data
    let data := serializeNDict data
    let data := applyRemapsReverse cls.remapsOf data
    let data := if data.mem "api" then data.pop "api" else data
    applyCleanups cls.cleanupsOf data
  | _ + 1, _, _, _ => []

/-- `_unifi_dict_protect_obj` (lines 261–269). -/
def _unifi_dict_protect_objF : Nat → List (String × Value) → NDict → String → Bool → Value
  | 0, _, _, _, _ => .null
  | fuel + 1, attrs, data, key, use_obj =>
    let value := if use_obj then getattrV attrs key else (data.get key).getD .null
    match value with
    | .obj cls2 api2 attrs2 => .dict (unifi_dictF fuel (.obj cls2 api2 attrs2) none none)
    | v => v

/-- `_unifi_dict_protect_obj_list` (lines 271–285). -/
def _unifi_dict_protect_obj_listF : Nat → List (String × Value) → NDict → String → Bool → Value
  | 0, _, _, _, _ => .null
  | fuel + 1, attrs, data, key, use_obj =>
    let value := if use_obj then getattrV attrs key else (data.get key).getD .null
    match value with
    | .list items =>
      .list (items.map
        (fun it =>
          match it with
          | .obj cls2 api2 attrs2 => .dict (unifi_dictF fuel (.obj cls2 api2 attrs2) none none)
          | it => it))
    | v => v

/-- `_unifi_dict_protect_obj_dict` (lines 287–301). -/
def _unifi_dict_protect_obj_dictF : Nat → List (String × Value) → NDict → String → Bool → Value
  | 0, _, _, _, _ => .null
  | fuel + 1, attrs, data, key, use_obj =>
    let value := if use_obj then getattrV attrs key else (data.get key).getD .null
    match value with
    | .dict entries =>
      .dict (entries.map
        (fun kv =>
          match kv.2 with
          | .obj cls2 api2 attrs2 => (kv.1, .dict (unifi_dictF fuel (.obj cls2 api2 attrs2) none none))
          | v => (kv.1, v)))
    | v => v

end

/-- Budget for `unifi_dictF`: two frames per nesting level is ample. -/
def uFuel (o : Value) (dataOpt : Option NDict) : Nat :=
  2 * (vdepth o + (match dataOpt with | some d => vdepthEntries d | none => 0)) + 2

/-- The public `unifi_dict` entry point. -/
def unifi_dict (o : Value) (dataOpt : Option NDict) (exclude : Option (List String)) : NDict :=
  unifi_dictF (uFuel o dataOpt) o dataOpt exclude

/-- `unifi_dictF` on an object, decomposed into its stages. -/
theorem unifi_dictF_stages (fuel : Nat) (cls : ClassDesc) (api : Option Value)
    (attrs : List (String × Value)) (dataOpt : Option NDict)
    (exclude : Option (List String)) :
    unifi_dictF (fuel + 1) (.obj cls api attrs) dataOpt exclude =
      (let use_obj := dataOpt.isNone
       let data : NDict :=
         match dataOpt with
         | none => objDict (excluded_fields cls exclude) attrs
         | some data => data
       let data := unifiProtectLoop
         (fun d k => _unifi_dict_protect_objF fuel attrs d k use_obj) use_obj
         (_get_protect_objs cls) data
       let data := unifiProtectLoop
         (fun d k => _unifi_dict_protect_obj_listF fuel attrs d k use_obj) use_obj
         (_get_protect_lists cls) data
       let data := unifiProtectLoop
         (fun d k => _unifi_dict_protect_obj_dictF fuel attrs d k use_obj) use_obj
         (_get_protect_dicts cls) data
       let data := serializeNDict data
       let data := applyRemapsReverse cls.remapsOf data
       let data := if data.mem "api" then data.pop "api" else data
       applyCleanups cls.cleanupsOf data) := rfl

/-- `construct` (lines 95–113): pop the api reference, fast-construct every
nested dict at a single-object / list / dict field with the child class,
then build the object unchecked (`super().construct` puts the remaining
values into `__dict__` as-is) and attach the api reference. A stored Python
`None` api is the same as an absent one. -/
def constructF : Nat → ClassDesc → NDict → Value
  | 0, cls, _ => .obj cls none []
  | fuel + 1, cls, values =>
    let api : Option Value :=
      match values.get "api" with
      | some v => if isNullV v then none else some v
      | none => none
    let values := values.pop "api"
    let values := (_get_protect_objs cls).foldl
      (fun vs nk =>
        match vs.get nk.1 with
        | some (.dict dd) => vs.set nk.1 (constructF fuel nk.2 dd)
        | _ => vs)
      values
    let values := (_get_protect_lists cls).foldl
      (fun vs nk =>
        match vs.get nk.1 with
        | some (.list items) =>
          vs.set nk.1 (.list (items.map
            (fun it =>
              match it with
              | .dict dd => constructF fuel nk.2 dd
              | it => it)))
        | _ => vs)
      values
    let values := (_get_protect_dicts cls).foldl
      (fun vs nk =>
        match vs.get nk.1 with
        | some (.dict entries) =>
          vs.set nk.1 (.dict (entries.map
            (fun kv =>
              match kv.2 with
              | .dict dd => (kv.1, constructF fuel nk.2 dd)
              | v => (kv.1, v))))
        | _ => vs)
      values
    .obj cls api values

/-- The public `construct` entry point. -/
def construct (cls : ClassDesc) (values : NDict) : Value :=
  constructF (vdepthEntries values + 1) cls values

/-- Pydantic v1 `copy(update=…)`: a new object with the update overlaid on
`__dict__`; no validation, no nested merge; private attrs (`_api`) are
carried over. -/
def pydCopy (o : Value) (update : NDict) : Value :=
  match o with
  | .obj cls api attrs => .obj cls api (update.foldl (fun a kv => NDict.set a kv.1 kv.2) attrs)
  | v => v

/-- One step of the nested-merge loop at lines 349–353: if the delta holds
the nested-object key and `getattr(self, key)` is a Typed Object, reassign
the attribute to the recursive merge (`recur` is the recursive
`update_from_dict` call) and pop the key from the delta. A delta value
that is not a dict at a nested-object key would raise inside the nested
call in Python; it is modelled as popping the key and leaving the
attribute unchanged (no theorem relies on that path). -/
def updStep (recur : Value → NDict → Value × Value)
    (ad : List (String × Value) × NDict) (nk : String × ClassDesc) :
    List (String × Value) × NDict :=
  if ad.2.mem nk.1 then
    match getattrV ad.1 nk.1 with
    | .obj cls2 api2 attrs2 =>
      match (ad.2.get nk.1).getD .null with
      | .dict dd =>
        (NDict.set ad.1 nk.1 (recur (.obj cls2 api2 attrs2) dd).2,
          ad.2.pop nk.1)
      | _ => (ad.1, ad.2.pop nk.1)
    | _ => (ad.1, ad.2)
  else ad

/-- `update_from_dict` (lines 347–364). Returns the pair
(receiver after the call, returned object): the loop at lines 349–353
mutates the receiver through `setattr`, so the receiver's state after the
call is part of the function's observable behavior. -/
def update_from_dictF (fuel : Nat) (debug : Bool) (o : Value) (data : NDict) :
    Value × Value :=
  match fuel, o with
  | 0, o => (o, o)
  | fuel + 1, .obj cls api attrs =>
    let ad := (_get_protect_objs cls).foldl
      (updStep (update_from_dictF fuel debug))
      (attrs, data)
    let attrs2 := ad.1
    let data2 := ad.2
    let data2 := if data2.mem "api" then data2.pop "api" else data2
    let mutated := Value.obj cls api attrs2
    if debug then (mutated, pydCopy mutated data2)
    else
      let new_data := objDict [] attrs2
      let new_data := data2.foldl (fun nd kv => NDict.set nd kv.1 kv.2) new_data
      let new_data := NDict.set new_data "api" (match api with | some a => a | none => .null)
      (mutated, constructF (fuel + 1) cls new_data)
  | _ + 1, o => (o, o)

/-- The public `update_from_dict` entry point. -/
def update_from_dict (debug : Bool) (o : Value) (data : NDict) : Value × Value :=
  update_from_dictF (vdepth o + vdepthEntries data + 2) debug o data

/-! ## Generic conversion facts -/

/-- The wire→native conversion keeps the back-reference binding intact:
when the input carries `"api" ↦ a`, so does the output, as long as no remap
or declared field collides with the key `"api"` and no other input key
snake-cases onto it. -/
theorem unifi_dict_to_dict_get_api (debug : Bool) (c : ClassDesc) (d : NDict) (a : Value)
    (ha : NDict.get d "api" = some a)
    (hkeys : ∀ k ∈ d.keys, to_snake_case k = "api" → k = "api")
    (hrm : ∀ fr ∈ c.remapsOf, fr.1 ≠ "api" ∧ fr.2 ≠ "api" ∧ to_snake_case fr.2 ≠ "api")
    (hf : "api" ∉ c.fieldNames) :
    NDict.get (unifi_dict_to_dict debug c d) "api" = some a := by
  rw [unifi_dict_to_dict_stages]
  have hobj : ∀ p ∈ _get_protect_objs c, p.1 ≠ "api" := by
    rintro ⟨n, k⟩ hp rfl
    exact hf (protect_name_mem_fieldNames (Or.inl hp))
  have hlst : ∀ p ∈ _get_protect_lists c, p.1 ≠ "api" := by
    rintro ⟨n, k⟩ hp rfl
    exact hf (protect_name_mem_fieldNames (Or.inr (Or.inl hp)))
  have hdct : ∀ p ∈ _get_protect_dicts c, p.1 ≠ "api" := by
    rintro ⟨n, k⟩ hp rfl
    exact hf (protect_name_mem_fieldNames (Or.inr (Or.inr hp)))
  have h0 : NDict.get (if c.devHookOf then protect_device_model_pre d else d) "api" = some a := by
    split_ifs
    · rw [pre_get_ne d "api" (by decide) (by decide) (by decide)]
      exact ha
    · exact ha
  have h0k : NDict.keys (if c.devHookOf then protect_device_model_pre d else d) = d.keys := by
    split_ifs
    · exact keys_pre d
    · rfl
  have h1 : NDict.get
      (applyRemaps c.remapsOf (if c.devHookOf then protect_device_model_pre d else d))
      "api" = some a := by
    rw [applyRemaps_get_ne _ _ _ (fun fr hm => ⟨(hrm fr hm).1, (hrm fr hm).2.1⟩)]
    exact h0
  have h1k : ∀ k ∈ (applyRemaps c.remapsOf
      (if c.devHookOf then protect_device_model_pre d else d)).keys,
      to_snake_case k = "api" → k = "api" := by
    intro k hk hs
    rcases mem_applyRemaps _ _ _ ((mem_iff_keys _ _).2 hk) with hm | ⟨fr, hfr, rfl⟩
    · exact hkeys k (h0k ▸ (mem_iff_keys _ _).1 hm) hs
    · exact absurd hs (hrm fr hfr).2.2
  have h2 : NDict.get (snakeLoop (applyRemaps c.remapsOf
      (if c.devHookOf then protect_device_model_pre d else d))) "api" = some a :=
    snakeLoop_get_fixed _ _ _ (by decide) h1k h1
  have h3 : NDict.get ((if !debug then
      dropLoop c (snakeLoop (applyRemaps c.remapsOf
        (if c.devHookOf then protect_device_model_pre d else d)))
    else snakeLoop (applyRemaps c.remapsOf
        (if c.devHookOf then protect_device_model_pre d else d)))) "api" = some a := by
    cases debug with
    | true =>
      simp only [Bool.not_true, Bool.false_eq_true, if_false]
      exact h2
    | false =>
      simp only [Bool.not_false, if_true]
      rw [dropLoop_get_api]
      exact h2
  rw [cleanDictsFold_get_ne _ _ _ _ hdct, cleanListsFold_get_ne _ _ _ _ hlst,
    cleanObjsFold_get_ne _ _ _ _ hobj]
  exact h3

@[simp] theorem fieldOf_eq_none_iff (c : ClassDesc) (K : String) :
    c.fieldOf K = none ↔ K ∉ c.fieldNames := by
  unfold ClassDesc.fieldOf ClassDesc.fieldNames
  rw [Option.map_eq_none', List.find?_eq_none]
  constructor
  · intro h hK
    obtain ⟨f, hf, he⟩ := List.mem_map.1 hK
    have := h f hf
    rw [he] at this
    simp at this
  · intro h f hf
    simp only [decide_eq_true_eq]
    intro he
    exact h (List.mem_map.2 ⟨f, hf, he⟩)

/-- The drop loop removes every binding whose key is neither `"api"` nor a
declared field. -/
theorem dropFold_not_mem (c : ClassDesc) (K : String) (hK : K ≠ "api")
    (hf : c.fieldOf K = none) (items : List (String × Value)) (acc : NDict)
    (hpre : NDict.mem acc K = false ∨ K ∈ items.map (·.1)) :
    NDict.mem
      (items.foldl
        (fun d kv =>
          if kv.1 = "api" then d
          else
            match c.fieldOf kv.1 with
            | none => d.pop kv.1
            | some sft => d.set kv.1 (convert_unifi_data kv.2 sft.2))
        acc)
      K = false := by
  induction items generalizing acc with
  | nil =>
    rcases hpre with h | h
    · exact h
    · simp at h
  | cons kv rest ih =>
    rw [List.foldl_cons]
    refine ih _ ?_
    by_cases hkv : kv.1 = K
    · left
      rw [if_neg (hkv ▸ hK), hkv, hf]
      simp
    · rcases hpre with h | h
      · left
        by_cases hapi : kv.1 = "api"
        · rwa [if_pos hapi]
        · rw [if_neg hapi]
          rcases c.fieldOf kv.1 with _ | sft <;> simp [hkv, h]
      · right
        obtain ⟨q, hq, he⟩ := List.mem_map.1 h
        rcases List.mem_cons.1 hq with rfl | hq2
        · exact absurd he hkv
        · exact List.mem_map.2 ⟨q, hq2, he⟩

theorem dropLoop_not_mem (c : ClassDesc) (d : NDict) (K : String) (hK : K ≠ "api")
    (hf : c.fieldOf K = none) :
    NDict.mem (dropLoop c d) K = false := by
  refine dropFold_not_mem c K hK hf d d ?_
  rcases hm : NDict.mem d K with _ | _
  · exact Or.inl rfl
  · exact Or.inr ((mem_iff_keys d K).1 hm)

/-- The wire→native conversion in normal mode drops every key other than
`"api"` that is not a declared field: the output can only bind declared
fields and the back-reference key. -/
theorem unifi_dict_to_dict_drops_unknown (c : ClassDesc) (d : NDict) (K : String)
    (hK : K ≠ "api") (hf : K ∉ c.fieldNames) :
    NDict.mem (unifi_dict_to_dict false c d) K = false := by
  rw [unifi_dict_to_dict_stages]
  have hobj : ∀ p ∈ _get_protect_objs c, p.1 ≠ K := by
    rintro ⟨n, k⟩ hp rfl
    exact hf (protect_name_mem_fieldNames (Or.inl hp))
  have hlst : ∀ p ∈ _get_protect_lists c, p.1 ≠ K := by
    rintro ⟨n, k⟩ hp rfl
    exact hf (protect_name_mem_fieldNames (Or.inr (Or.inl hp)))
  have hdct : ∀ p ∈ _get_protect_dicts c, p.1 ≠ K := by
    rintro ⟨n, k⟩ hp rfl
    exact hf (protect_name_mem_fieldNames (Or.inr (Or.inr hp)))
  simp only [Bool.not_false, if_true]
  rw [NDict.mem_eq_isSome, cleanDictsFold_get_ne _ _ _ _ hdct,
    cleanListsFold_get_ne _ _ _ _ hlst, cleanObjsFold_get_ne _ _ _ _ hobj,
    ← NDict.mem_eq_isSome]
  exact dropLoop_not_mem c _ K hK ((fieldOf_eq_none_iff c K).2 hf)

/-! ## Cleanup-chain and serialization-loop lemmas -/

/-- `applyCleanups` only deletes; it never adds a key. -/
theorem cleanupStep_mem_false (d : NDict) (c : String × Bool) (K : String)
    (h : NDict.mem d K = false) :
    NDict.mem (cleanupStep d c) K = false := by
  unfold cleanupStep
  split_ifs <;> simp_all

theorem applyCleanups_mem_false (cs : List (String × Bool)) (d : NDict) (K : String)
    (h : NDict.mem d K = false) :
    NDict.mem (applyCleanups cs d) K = false := by
  induction cs generalizing d with
  | nil => exact h
  | cons c rest ih =>
    exact ih _ (cleanupStep_mem_false d c K h)

/-- After an unconditional deletion of `K` in the chain, the output never
contains `K`. -/
theorem applyCleanups_mem_false_of_uncond (cs : List (String × Bool)) (d : NDict)
    (K : String) (h : (K, true) ∈ cs) :
    NDict.mem (applyCleanups cs d) K = false := by
  induction cs generalizing d with
  | nil => cases h
  | cons c rest ih =>
    rcases List.mem_cons.1 h with rfl | hrest
    · refine applyCleanups_mem_false rest _ K ?_
      unfold cleanupStep
      split_ifs <;> simp_all
    · exact ih _ hrest

/-- The serialization loops only write at their recorded names. -/
theorem unifiProtectLoop_cons (h : NDict → String × Value → Value) (use_obj : Bool)
    (p : String × ClassDesc) (rest : List (String × ClassDesc)) (d : NDict)
    (h2 : NDict → String → Value) :
    unifiProtectLoop h2 use_obj (p :: rest) d =
      unifiProtectLoop h2 use_obj rest
        (if use_obj || d.mem p.1 then d.set p.1 (h2 d p.1) else d) := rfl

theorem unifiProtectLoop_get_ne (h : NDict → String → Value) (use_obj : Bool)
    (pairs : List (String × ClassDesc)) (d : NDict) (K : String)
    (hne : ∀ p ∈ pairs, p.1 ≠ K) :
    NDict.get (unifiProtectLoop h use_obj pairs d) K = NDict.get d K := by
  induction pairs generalizing d with
  | nil => rfl
  | cons p rest ih =>
    rw [unifiProtectLoop_cons (fun _ _ => Value.null) use_obj p rest d h,
      ih _ (fun q hq => hne q (List.mem_cons_of_mem _ hq))]
    split_ifs <;>
      simp [NDict.get_set_ne _ _ _ _ (hne p (List.mem_cons_self _ _))]

/-- A serialization loop whose per-key value does not depend on the working
dict binds every recorded name (with distinct names) to that value. -/
theorem unifiProtectLoop_get_of_mem (H : String → Value)
    (pairs : List (String × ClassDesc)) (d : NDict) (n : String) (kd : ClassDesc)
    (hmem : (n, kd) ∈ pairs) (hnd : (pairs.map (·.1)).Nodup) :
    NDict.get (unifiProtectLoop (fun _ k => H k) true pairs d) n = some (H n) := by
  induction pairs generalizing d with
  | nil => cases hmem
  | cons p rest ih =>
    show NDict.get (unifiProtectLoop _ true rest _) n = _
    rcases List.mem_cons.1 hmem with rfl | hrest
    · rw [unifiProtectLoop_get_ne _ _ _ _ _ (fun q hq he => ?_)]
      · simp
      · exact (List.nodup_cons.1 hnd).1 (he ▸ List.mem_map.2 ⟨q, hq, rfl⟩)
    · exact ih _ hrest (List.nodup_cons.1 hnd).2

/-- With `use_obj = True` the three `_unifi_dict_protect_obj*` helpers read
the value from `getattr(self, key)` and ignore the working dict. -/
theorem protect_objF_data_irrel (fuel : Nat) (attrs : List (String × Value))
    (d : NDict) (k : String) :
    _unifi_dict_protect_objF fuel attrs d k true =
      _unifi_dict_protect_objF fuel attrs [] k true := by
  cases fuel <;> rfl

theorem protect_obj_listF_data_irrel (fuel : Nat) (attrs : List (String × Value))
    (d : NDict) (k : String) :
    _unifi_dict_protect_obj_listF fuel attrs d k true =
      _unifi_dict_protect_obj_listF fuel attrs [] k true := by
  cases fuel <;> rfl

theorem protect_obj_dictF_data_irrel (fuel : Nat) (attrs : List (String × Value))
    (d : NDict) (k : String) :
    _unifi_dict_protect_obj_dictF fuel attrs d k true =
      _unifi_dict_protect_obj_dictF fuel attrs [] k true := by
  cases fuel <;> rfl

/-- A field excluded from the dump is absent from the dump. -/
theorem objDict_not_mem_excluded (exclude : List String)
    (attrs : List (String × Value)) (k : String) (h : k ∈ exclude) :
    NDict.mem (objDict exclude attrs) k = false := by
  induction attrs with
  | nil => rfl
  | cons p rest ih =>
    by_cases hk : exclude.contains p.1 <;>
      simp only [objDict, List.filter_cons, hk] at ih ⊢
    · simpa using ih
    · obtain ⟨k0, v0⟩ := p
      have : k0 ≠ k := by
        rintro rfl
        exact absurd (List.elem_eq_true_of_mem h) (by simpa using hk)
      simpa [this] using ih

/-! ## Claim theorems -/

/-- C1: the claim states that a list-of-Typed-Objects field is recorded in
`list_fields` and NOT also in `obj_fields`. The code records it in BOTH: the
`if field.shape == SHAPE_DICT: … else: …` at lines 142–145 is not an `elif`,
so its `else` branch also fires for `SHAPE_LIST` fields. This theorem
evaluates `_set_protect_subtypes` on a class declaring a single
list-of-Typed-Objects field: the field lands in `_protect_lists` and in
`_protect_objs`. -/
theorem C1_list_field_recorded_in_both_caches (n : String) (k : ClassDesc) :
    _set_protect_subtypes [(n, .list, .protect k)] = ([(n, k)], [(n, k)], []) := rfl

/-- C2 counterexample: the claim states `unifi_dict_to_dict` removes the
back-reference key, so the returned dict never contains `"api"`. On the
concrete wire dict `{"api": <handle>, "phyRate": 5}` for
`WiredConnectionState` the returned dict still contains `"api"`: line 224
only reads `data.get("api")` without removing it, and the unknown-field
loop explicitly skips the key (lines 238–239). -/
theorem C2_counterexample_api_retained :
    NDict.mem
      (unifi_dict_to_dict false WiredConnectionState [("api", .apiRef 0), ("phyRate", .int 5)])
      "api" = true := rfl

/-- C2 (amended): `unifi_dict_to_dict` extracts the back-reference value as
its first step (to inject it into nested child dicts) but does not remove
the key: the `"api"` binding survives into the returned dict unchanged; it
is removed later, by `from_unifi_dict` (line 89) or `construct` (line 97). -/
theorem C2_amended_api_binding_survives (debug : Bool) (c : ClassDesc) (d : NDict)
    (a : Value)
    (ha : NDict.get d "api" = some a)
    (hkeys : ∀ k ∈ d.keys, to_snake_case k = "api" → k = "api")
    (hrm : ∀ fr ∈ c.remapsOf, fr.1 ≠ "api" ∧ fr.2 ≠ "api" ∧ to_snake_case fr.2 ≠ "api")
    (hf : "api" ∉ c.fieldNames) :
    NDict.get (unifi_dict_to_dict debug c d) "api" = some a :=
  unifi_dict_to_dict_get_api debug c d a ha hkeys hrm hf

/-- Witness for the amended C2 theorem at a concrete input. -/
theorem C2_amended_api_binding_survives_witness :
    NDict.get (unifi_dict_to_dict false WifiConnectionState
      [("api", .apiRef 3), ("channel", .int 6)]) "api" = some (.apiRef 3) :=
  C2_amended_api_binding_survives false WifiConnectionState
    [("api", .apiRef 3), ("channel", .int 6)] (.apiRef 3)
    rfl (by decide) (by decide) (by decide)

/-- C4 counterexample: the claim quantifies over EVERY input key that is not
a declared native field; the back-reference key `"api"` is such a key
(it stays `"api"` after remapping and snake_case and is not declared), yet
normal mode retains it (lines 238–239 `continue` past it). -/
theorem C4_counterexample_api_not_dropped :
    NDict.mem (unifi_dict_to_dict false WirelessConnectionState [("api", .apiRef 1)])
      "api" = true := rfl

/-- C4 (amended): in normal mode `unifi_dict_to_dict` drops every key that
is not a declared native field, EXCEPT the back-reference key `"api"`
(first conjunct: the output never binds such a key); in debug mode unknown
keys are retained in snake_case form (second conjunct: the claim's own
example evaluated on `ProtectDeviceModel`). -/
theorem C4_amended_unknown_field_handling :
    (∀ (c : ClassDesc) (d : NDict) (K : String), K ≠ "api" → K ∉ c.fieldNames →
        NDict.mem (unifi_dict_to_dict false c d) K = false) ∧
      unifi_dict_to_dict true ProtectDeviceModel
          [("totallyUnknownField", .int 1), ("id", .str "x")] =
        [("totally_unknown_field", .int 1), ("id", .str "x")] :=
  ⟨fun c d K hK hf => unifi_dict_to_dict_drops_unknown c d K hK hf, rfl⟩

/-- Witness for the amended C4 theorem: the claim's own example key dropped
in normal mode. -/
theorem C4_amended_unknown_field_handling_witness :
    NDict.mem (unifi_dict_to_dict false ProtectDeviceModel
      [("totallyUnknownField", .int 1), ("id", .str "x")]) "totally_unknown_field" = false :=
  C4_amended_unknown_field_handling.1 ProtectDeviceModel
    [("totallyUnknownField", .int 1), ("id", .str "x")] "totally_unknown_field"
    (by decide) (by decide)

@[simp] theorem convert_unifi_data_plain (v : Value) :
    convert_unifi_data v (.scalar .plain) = v := by
  cases v <;> rfl

@[simp] theorem convert_unifi_data_raising (v : Value) :
    convert_unifi_data v .raising = v := by
  cases v <;> rfl

@[simp] theorem convert_unifi_data_protect (c : ClassDesc) (v : Value) :
    convert_unifi_data v (.protect c) = v := by
  cases v <;> rfl

/-- Reading of an epoch-millisecond timestamp as a UTC civil date-time
`(year, month, day, hour, minute, second)`, via the standard
days-to-civil-date conversion; used to state what absolute instant a
`datetime` value denotes. -/
def epochMsToUTC (ms : Nat) : Nat × Nat × Nat × Nat × Nat × Nat :=
  let s := ms / 1000
  let days := s / 86400
  let rem := s % 86400
  let z := days + 719468
  let era := z / 146097
  let doe := z % 146097
  let yoe := (doe - doe / 1460 + doe / 36524 - doe / 146096) / 365
  let y := yoe + era * 400
  let doy := doe - (365 * yoe + yoe / 4 - yoe / 100)
  let mp := (5 * doy + 2) / 153
  let dd := doy - (153 * mp + 2) / 5 + 1
  let mo := if mp < 10 then mp + 3 else mp - 9
  let yy := if mo ≤ 2 then y + 1 else y
  (yy, mo, dd, rem / 3600, rem % 3600 / 60, rem % 60)

/-- `timedelta.total_seconds()` of a duration value (whole seconds). -/
def timedeltaSeconds : Value → Int
  | .timedelta ms => ms / 1000
  | _ => 0

set_option maxHeartbeats 4000000 in
/-- C7: `ProtectDeviceModel`'s wire→native conversion coerces a present
`lastSeen` epoch-millisecond integer to an absolute timestamp (and
1700000000000 ms denotes 2023-11-14T22:13:20 UTC), a present non-null
`upSince` likewise, a present non-null integer `uptime` to a duration of
that many milliseconds (and 60000 ms is 60 seconds), leaves an
already-`timedelta` `uptime` unchanged, and leaves a null `uptime` (and a
null `upSince`) null. -/
theorem C7_device_model_scalar_coercions :
    (∀ t u n : Int,
      unifi_dict_to_dict false ProtectDeviceModel
          [("lastSeen", .int t), ("upSince", .int u), ("uptime", .int n)] =
        [("last_seen", .datetime t), ("up_since", .datetime u), ("uptime", .timedelta n)]) ∧
    (∀ t : Int,
      unifi_dict_to_dict false ProtectDeviceModel
          [("lastSeen", .int t), ("upSince", .null), ("uptime", .null)] =
        [("last_seen", .datetime t), ("up_since", .null), ("uptime", .null)]) ∧
    (∀ ms : Int,
      unifi_dict_to_dict false ProtectDeviceModel [("uptime", .timedelta ms)] =
        [("uptime", .timedelta ms)]) ∧
    epochMsToUTC 1700000000000 = (2023, 11, 14, 22, 13, 20) ∧
    timedeltaSeconds (.timedelta 60000) = 60 := by
  refine ⟨fun t u n => ?_, fun t => ?_, fun ms => ?_, rfl, rfl⟩
  · have h0 : protect_device_model_pre
        [("lastSeen", .int t), ("upSince", .int u), ("uptime", .int n)] =
        [("lastSeen", .datetime t), ("upSince", .datetime u), ("uptime", .timedelta n)] := rfl
    have h1 : applyRemaps ProtectDeviceModel.remapsOf
        [("lastSeen", .datetime t), ("upSince", .datetime u), ("uptime", .timedelta n)] =
        [("lastSeen", .datetime t), ("upSince", .datetime u), ("uptime", .timedelta n)] := rfl
    have h2 : snakeLoop
        [("lastSeen", .datetime t), ("upSince", .datetime u), ("uptime", .timedelta n)] =
        [("last_seen", .datetime t), ("up_since", .datetime u), ("uptime", .timedelta n)] := rfl
    have h3 : dropLoop ProtectDeviceModel
        [("last_seen", .datetime t), ("up_since", .datetime u), ("uptime", .timedelta n)] =
        [("last_seen", .datetime t), ("up_since", .datetime u), ("uptime", .timedelta n)] := rfl
    rw [unifi_dict_to_dict_stages]
    simp only [ProtectDeviceModel, ClassDesc.devHookOf, ClassDesc.remapsOf] at h0 h1 h2 h3 ⊢
    simp only [h0, reduceIte, Bool.not_false, h1, h2, h3]
    rfl
  · have h0 : protect_device_model_pre
        [("lastSeen", .int t), ("upSince", .null), ("uptime", .null)] =
        [("lastSeen", .datetime t), ("upSince", .null), ("uptime", .null)] := rfl
    have h1 : applyRemaps ProtectDeviceModel.remapsOf
        [("lastSeen", .datetime t), ("upSince", .null), ("uptime", .null)] =
        [("lastSeen", .datetime t), ("upSince", .null), ("uptime", .null)] := rfl
    have h2 : snakeLoop [("lastSeen", .datetime t), ("upSince", .null), ("uptime", .null)] =
        [("last_seen", .datetime t), ("up_since", .null), ("uptime", .null)] := rfl
    have h3 : dropLoop ProtectDeviceModel
        [("last_seen", .datetime t), ("up_since", .null), ("uptime", .null)] =
        [("last_seen", .datetime t), ("up_since", .null), ("uptime", .null)] := rfl
    rw [unifi_dict_to_dict_stages]
    simp only [ProtectDeviceModel, ClassDesc.devHookOf, ClassDesc.remapsOf] at h0 h1 h2 h3 ⊢
    simp only [h0, reduceIte, Bool.not_false, h1, h2, h3]
    rfl
  · have h0 : protect_device_model_pre [("uptime", .timedelta ms)] =
        [("uptime", .timedelta ms)] := rfl
    have h1 : applyRemaps ProtectDeviceModel.remapsOf [("uptime", .timedelta ms)] =
        [("uptime", .timedelta ms)] := rfl
    have h2 : snakeLoop [("uptime", .timedelta ms)] = [("uptime", .timedelta ms)] := rfl
    have h3 : dropLoop ProtectDeviceModel [("uptime", .timedelta ms)] =
        [("uptime", .timedelta ms)] := rfl
    rw [unifi_dict_to_dict_stages]
    simp only [ProtectDeviceModel, ClassDesc.devHookOf, ClassDesc.remapsOf] at h0 h1 h2 h3 ⊢
    simp only [h0, reduceIte, Bool.not_false, h1, h2, h3]
    rfl

/-- C8 counterexample: for the Remap Table pair `("bridge", "bridgeId")` of
`ProtectAdoptableDeviceModel` (line 474), converting `{"bridge": v}` to
native does NOT yield a binding at the pair's native key `"bridgeId"`: the
remapped key is subsequently snake_cased to `"bridge_id"` (line 233). -/
theorem C8_counterexample_remap_target_not_bound :
    ("bridge", "bridgeId") ∈ ProtectAdoptableDeviceModel.remapsOf ∧
      unifi_dict_to_dict false ProtectAdoptableDeviceModel [("bridge", .str "b1")] =
        [("bridge_id", .str "b1")] ∧
      NDict.get (unifi_dict_to_dict false ProtectAdoptableDeviceModel
        [("bridge", .str "b1")]) "bridgeId" = none := by
  refine ⟨by decide, rfl, rfl⟩

set_option maxHeartbeats 4000000 in
/-- C8 (amended): for each `(wireKey, nativeKey)` pair of the class's Remap
Table, converting `{wireKey: v}` to native binds `to_snake_case nativeKey`
(not `nativeKey` itself) to `v`; serializing a native object whose
corresponding native field holds a non-null string `v` yields a wire dict
containing `{wireKey: v}`. Stated for both pairs of
`ProtectAdoptableDeviceModel`'s table. -/
theorem C8_amended_remap_symmetry :
    (∀ v : Value,
      NDict.get (unifi_dict_to_dict false ProtectAdoptableDeviceModel [("bridge", v)])
          (to_snake_case "bridgeId") = some v ∧
      NDict.get (unifi_dict_to_dict false ProtectAdoptableDeviceModel [("modelKey", v)])
          (to_snake_case "model") = some v) ∧
    (∀ s m : String,
      NDict.get (unifi_dict (.obj ProtectAdoptableDeviceModel none
          [("model", .str m), ("bridge_id", .str s)]) none none) "bridge" =
        some (.str s) ∧
      NDict.get (unifi_dict (.obj ProtectAdoptableDeviceModel none
          [("model", .str m), ("bridge_id", .str s)]) none none) "modelKey" =
        some (.str m)) := by
  constructor
  · intro v
    have hb0 : applyRemaps ProtectAdoptableDeviceModel.remapsOf [("bridge", v)] =
        [("bridgeId", v)] := rfl
    have hb1 : snakeLoop [("bridgeId", v)] = [("bridge_id", v)] := rfl
    have hb2 : dropLoop ProtectAdoptableDeviceModel [("bridge_id", v)] =
        [("bridge_id", v)] := rfl
    have hm0 : applyRemaps ProtectAdoptableDeviceModel.remapsOf [("modelKey", v)] =
        [("model", v)] := rfl
    have hm1 : snakeLoop [("model", v)] = [("model", v)] := rfl
    have hm2 : dropLoop ProtectAdoptableDeviceModel [("model", v)] = [("model", v)] := rfl
    constructor
    · rw [unifi_dict_to_dict_stages]
      simp only [ProtectAdoptableDeviceModel, ClassDesc.devHookOf, ClassDesc.remapsOf]
        at hb0 hb1 hb2 ⊢
      have hpre : protect_device_model_pre [("bridge", v)] = [("bridge", v)] := rfl
      simp only [reduceIte, hpre, Bool.not_false, hb0, hb1, hb2]
      rfl
    · rw [unifi_dict_to_dict_stages]
      simp only [ProtectAdoptableDeviceModel, ClassDesc.devHookOf, ClassDesc.remapsOf]
        at hm0 hm1 hm2 ⊢
      have hpre : protect_device_model_pre [("modelKey", v)] = [("modelKey", v)] := rfl
      simp only [reduceIte, hpre, Bool.not_false, hm0, hm1, hm2]
      rfl
  · intro s m
    have hout : unifi_dict (.obj ProtectAdoptableDeviceModel none
        [("model", .str m), ("bridge_id", .str s)]) none none =
        [("modelKey", .str m), ("bridge", .str s)] := by
      show unifi_dictF 4 _ none none = _
      have h0 : objDict (excluded_fields ProtectAdoptableDeviceModel none)
          [("model", .str m), ("bridge_id", .str s)] =
          [("model", .str m), ("bridge_id", .str s)] := rfl
      have h1 : unifiProtectLoop
          (fun d k => _unifi_dict_protect_objF 3
            [("model", .str m), ("bridge_id", .str s)] d k true) true
          (_get_protect_objs ProtectAdoptableDeviceModel)
          [("model", .str m), ("bridge_id", .str s)] =
          [("model", .str m), ("bridge_id", .str s), ("wired_connection_state", .null),
           ("wifi_connection_state", .null), ("bluetooth_connection_state", .null)] := rfl
      have h2 : serializeNDict
          [("model", .str m), ("bridge_id", .str s), ("wired_connection_state", .null),
           ("wifi_connection_state", .null), ("bluetooth_connection_state", .null)] =
          [("model", .str m), ("bridgeId", .str s), ("wiredConnectionState", .null),
           ("wifiConnectionState", .null), ("bluetoothConnectionState", .null)] := rfl
      have h3 : applyRemapsReverse ProtectAdoptableDeviceModel.remapsOf
          [("model", .str m), ("bridgeId", .str s), ("wiredConnectionState", .null),
           ("wifiConnectionState", .null), ("bluetoothConnectionState", .null)] =
          [("wiredConnectionState", .null), ("wifiConnectionState", .null),
           ("bluetoothConnectionState", .null), ("modelKey", .str m), ("bridge", .str s)] := rfl
      have h4 : applyCleanups ProtectAdoptableDeviceModel.cleanupsOf
          [("wiredConnectionState", .null), ("wifiConnectionState", .null),
           ("bluetoothConnectionState", .null), ("modelKey", .str m), ("bridge", .str s)] =
          [("modelKey", .str m), ("bridge", .str s)] := rfl
      rw [show (4 : Nat) = 3 + 1 from rfl, unifi_dictF_stages]
      simp only [Option.isNone_none, h0, h1]
      have h1l : unifiProtectLoop
          (fun d k => _unifi_dict_protect_obj_listF 3
            [("model", .str m), ("bridge_id", .str s)] d k true) true
          (_get_protect_lists ProtectAdoptableDeviceModel)
          [("model", .str m), ("bridge_id", .str s), ("wired_connection_state", .null),
           ("wifi_connection_state", .null), ("bluetooth_connection_state", .null)] =
          [("model", .str m), ("bridge_id", .str s), ("wired_connection_state", .null),
           ("wifi_connection_state", .null), ("bluetooth_connection_state", .null)] := rfl
      have h1d : unifiProtectLoop
          (fun d k => _unifi_dict_protect_obj_dictF 3
            [("model", .str m), ("bridge_id", .str s)] d k true) true
          (_get_protect_dicts ProtectAdoptableDeviceModel)
          [("model", .str m), ("bridge_id", .str s), ("wired_connection_state", .null),
           ("wifi_connection_state", .null), ("bluetooth_connection_state", .null)] =
          [("model", .str m), ("bridge_id", .str s), ("wired_connection_state", .null),
           ("wifi_connection_state", .null), ("bluetooth_connection_state", .null)] := rfl
      simp only [h1l, h1d, h2, h3]
      have hapi : NDict.mem
          [("wiredConnectionState", .null), ("wifiConnectionState", .null),
           ("bluetoothConnectionState", .null), ("modelKey", .str m), ("bridge", .str s)]
          "api" = false := rfl
      rw [hapi]
      simp only [Bool.false_eq_true, if_false]
      exact h4
    exact ⟨by rw [hout]; rfl, by rw [hout]; rfl⟩

/-! ## C3: nested-field serialization in `unifi_dict` -/

/-- Pointwise-equal per-key serializers drive the loop to the same dict. -/
theorem unifiProtectLoop_congr (h2 : NDict → String → Value) (H : String → Value)
    (heq : ∀ d k, h2 d k = H k) (use_obj : Bool)
    (pairs : List (String × ClassDesc)) (d : NDict) :
    unifiProtectLoop h2 use_obj pairs d =
      unifiProtectLoop (fun _ k => H k) use_obj pairs d := by
  induction pairs generalizing d with
  | nil => rfl
  | cons p rest ih =>
    rw [unifiProtectLoop_cons (fun _ _ => Value.null) use_obj p rest d h2,
      unifiProtectLoop_cons (fun _ _ => Value.null) use_obj p rest d (fun _ k => H k),
      heq]
    exact ih _

/-- The dump-and-assemble stage of `unifi_dict` with `data=None` (lines
317–335): the shallow dump followed by the three nested-serialization
loops, before the `serialize_unifi_obj` / reverse-remap / api-pop /
cleanup stages. -/
def unifiAssembled (fuel : Nat) (cls : ClassDesc) (attrs : List (String × Value))
    (exclude : Option (List String)) : NDict :=
  let data := objDict (excluded_fields cls exclude) attrs
  let data := unifiProtectLoop
    (fun d k => _unifi_dict_protect_objF fuel attrs d k true) true
    (_get_protect_objs cls) data
  let data := unifiProtectLoop
    (fun d k => _unifi_dict_protect_obj_listF fuel attrs d k true) true
    (_get_protect_lists cls) data
  unifiProtectLoop
    (fun d k => _unifi_dict_protect_obj_dictF fuel attrs d k true) true
    (_get_protect_dicts cls) data

/-- The example class of C3's counterexample: one declared field holding a
Dict of Typed Objects. -/
def CameraMapExample : ClassDesc :=
  .mk [("cameras", .dict, .protect WiredConnectionState)] [] [] false

/-- A class mixing a single-object, a list-of-objects, a dict-of-objects
and a plain scalar field, for the C3 witness. -/
def MixedExample : ClassDesc :=
  .mk [("sub", .single, .protect WiredConnectionState),
       ("items", .list, .protect WiredConnectionState),
       ("cameras", .dict, .protect WiredConnectionState),
       ("name", .single, .scalar .plain)] [] [] false

/-- C3 counterexample: the claim states that dict-of-object fields are
excluded from the generic shallow dump. The exclusion set built at lines
319–321 is `_get_protect_objs ∪ _get_protect_lists` only — it omits the
`_get_protect_dicts` keys — so for a class whose only Typed-Object field is
dict-shaped the exclusion set is empty and the shallow dump retains the
field. (The dumped value is later overwritten by the dict-serialization
loop, so only the exclusion sentence of the claim is wrong.) -/
theorem C3_counterexample_dict_field_not_excluded :
    _get_protect_dicts CameraMapExample = [("cameras", WiredConnectionState)] ∧
    excluded_fields CameraMapExample none = [] ∧
    NDict.mem
      (objDict (excluded_fields CameraMapExample none)
        [("cameras", Value.dict [])])
      "cameras" = true := ⟨rfl, rfl, rfl⟩

/-- C3 (amended): with `data=None`, (1) `unifi_dict` is the assembled
dump-and-serialize stage followed by the serialize/remap/api/cleanup
stages; (2) single-object and list-of-object fields (but not dict-of-object
fields) are excluded from the generic shallow dump; (3–5) in the assembled
dict, every single-object, list-of-object and dict-of-object field whose
name is not shadowed by a later loop is bound to the result of the
corresponding recursive `_unifi_dict_protect_obj*` helper, which reads the
live attribute (`use_obj=True`) and recursively serializes each nested
Typed Object with `unifi_dict` — never the generic dump. -/
theorem C3_amended_nested_field_serialization (c : ClassDesc)
    (exclude : Option (List String)) (attrs : List (String × Value)) (fuel : Nat) :
    (∀ api, unifi_dictF (fuel + 1) (.obj c api attrs) none exclude =
      (let data := serializeNDict (unifiAssembled fuel c attrs exclude)
       let data := applyRemapsReverse c.remapsOf data
       let data := if data.mem "api" then data.pop "api" else data
       applyCleanups c.cleanupsOf data)) ∧
    (∀ n k, (n, k) ∈ _get_protect_objs c ++ _get_protect_lists c →
      NDict.mem (objDict (excluded_fields c exclude) attrs) n = false) ∧
    (∀ n k, (n, k) ∈ _get_protect_objs c →
      ((_get_protect_objs c).map (·.1)).Nodup →
      (∀ p ∈ _get_protect_lists c, p.1 ≠ n) →
      (∀ p ∈ _get_protect_dicts c, p.1 ≠ n) →
      NDict.get (unifiAssembled fuel c attrs exclude) n =
        some (_unifi_dict_protect_objF fuel attrs [] n true)) ∧
    (∀ n k, (n, k) ∈ _get_protect_lists c →
      ((_get_protect_lists c).map (·.1)).Nodup →
      (∀ p ∈ _get_protect_dicts c, p.1 ≠ n) →
      NDict.get (unifiAssembled fuel c attrs exclude) n =
        some (_unifi_dict_protect_obj_listF fuel attrs [] n true)) ∧
    (∀ n k, (n, k) ∈ _get_protect_dicts c →
      ((_get_protect_dicts c).map (·.1)).Nodup →
      NDict.get (unifiAssembled fuel c attrs exclude) n =
        some (_unifi_dict_protect_obj_dictF fuel attrs [] n true)) := by
  refine ⟨fun api => rfl, ?_, ?_, ?_, ?_⟩
  · intro n k hmem
    have hn : n ∈ (_get_protect_objs c).map (·.1) ++ (_get_protect_lists c).map (·.1) := by
      rcases List.mem_append.1 hmem with h | h
      · exact List.mem_append_left _ (List.mem_map.2 ⟨(n, k), h, rfl⟩)
      · exact List.mem_append_right _ (List.mem_map.2 ⟨(n, k), h, rfl⟩)
    refine objDict_not_mem_excluded _ _ _ ?_
    unfold excluded_fields
    cases exclude with
    | none => exact hn
    | some ex => exact List.mem_append_left _ hn
  · intro n k hmem hnd hl hd
    simp only [unifiAssembled]
    rw [unifiProtectLoop_get_ne _ _ _ _ _ hd,
      unifiProtectLoop_get_ne _ _ _ _ _ hl,
      unifiProtectLoop_congr _ (fun k2 => _unifi_dict_protect_objF fuel attrs [] k2 true)
        (fun d k2 => protect_objF_data_irrel fuel attrs d k2) true (_get_protect_objs c) _]
    exact unifiProtectLoop_get_of_mem _ _ _ _ _ hmem hnd
  · intro n k hmem hnd hd
    simp only [unifiAssembled]
    rw [unifiProtectLoop_get_ne _ _ _ _ _ hd,
      unifiProtectLoop_congr _ (fun k2 => _unifi_dict_protect_obj_listF fuel attrs [] k2 true)
        (fun d k2 => protect_obj_listF_data_irrel fuel attrs d k2) true (_get_protect_lists c) _]
    exact unifiProtectLoop_get_of_mem _ _ _ _ _ hmem hnd
  · intro n k hmem hnd
    simp only [unifiAssembled]
    rw [unifiProtectLoop_congr _ (fun k2 => _unifi_dict_protect_obj_dictF fuel attrs [] k2 true)
        (fun d k2 => protect_obj_dictF_data_irrel fuel attrs d k2) true (_get_protect_dicts c) _]
    exact unifiProtectLoop_get_of_mem _ _ _ _ _ hmem hnd

/-- Witness for the amended C3 theorem: for `MixedExample`, the
single-object field "sub" is excluded from the shallow dump and is bound in
the assembled dict to its recursive helper value. -/
theorem C3_amended_nested_field_serialization_witness :
    NDict.mem (objDict (excluded_fields MixedExample none)
        [("sub", Value.obj WiredConnectionState none [("phy_rate", Value.int 5)]),
         ("name", Value.str "x")]) "sub" = false ∧
    NDict.get (unifiAssembled 1 MixedExample
        [("sub", Value.obj WiredConnectionState none [("phy_rate", Value.int 5)]),
         ("name", Value.str "x")] none) "sub" =
      some (_unifi_dict_protect_objF 1
        [("sub", Value.obj WiredConnectionState none [("phy_rate", Value.int 5)]),
         ("name", Value.str "x")] [] "sub" true) :=
  ⟨(C3_amended_nested_field_serialization MixedExample none
      [("sub", Value.obj WiredConnectionState none [("phy_rate", Value.int 5)]),
       ("name", Value.str "x")] 1).2.1 "sub" WiredConnectionState
      (List.mem_append_left _ (List.mem_cons_self _ _)),
   (C3_amended_nested_field_serialization MixedExample none
      [("sub", Value.obj WiredConnectionState none [("phy_rate", Value.int 5)]),
       ("name", Value.str "x")] 1).2.2.1 "sub" WiredConnectionState
      (List.mem_cons_self _ _) (by decide) (by decide) (by decide)⟩

/-! ## C10: the motion model's wire dict never carries lastMotionEventId -/

/-- C10: for every `ProtectMotionDeviceModel` object (any api back-reference
and any attribute values, including a non-null `last_motion_event_id`), and
for every `data`/`exclude` argument, the wire dict produced by `unifi_dict`
does not contain the key `"lastMotionEventId"`: the override at lines
520–521 deletes it unconditionally after the base serialization, so the
field is always lost in a native→wire→native round trip. -/
theorem C10_last_motion_event_id_never_serialized (api : Option Value)
    (attrs : List (String × Value)) (dataOpt : Option NDict)
    (exclude : Option (List String)) :
    NDict.mem
      (unifi_dict (.obj ProtectMotionDeviceModel api attrs) dataOpt exclude)
      "lastMotionEventId" = false := by
  show NDict.mem
    (unifi_dictF (uFuel (.obj ProtectMotionDeviceModel api attrs) dataOpt)
      (.obj ProtectMotionDeviceModel api attrs) dataOpt exclude)
    "lastMotionEventId" = false
  rw [show uFuel (.obj ProtectMotionDeviceModel api attrs) dataOpt =
      (2 * (vdepth (.obj ProtectMotionDeviceModel api attrs) +
        (match dataOpt with | some d => vdepthEntries d | none => 0)) + 1) + 1 from rfl,
    unifi_dictF_stages]
  exact applyCleanups_mem_false_of_uncond _ _ _ (by decide)

/-! ## C5: field-wise nested merge in `update_from_dict` -/

set_option maxHeartbeats 4000000 in
/-- C5: for a `ProtectAdoptableDeviceModel` whose `wifi_connection_state`
is a non-null nested object, and a delta carrying a partial dict for that
field (`phy_rate` only) plus an attempt to set `"api"`, `update_from_dict`
merges the nested delta field-wise into the existing nested object: the
returned object has the delta's `phy_rate`, the sibling nested fields
(`channel`, `ssid`) keep their previous values, the top-level scalar
`name` is untouched, and the back-reference is the receiver's original
one — the delta's `"api"` entry is discarded. This holds in both debug
(validated-copy) and normal (fast-construct) mode. -/
theorem C5_update_from_dict_nested_merge (debug : Bool) (nm ss : String)
    (ch pr v10 : Int) (napi : Nat) :
    (update_from_dict debug
      (.obj ProtectAdoptableDeviceModel (some (.apiRef napi))
        [("name", .str nm),
         ("wifi_connection_state", .obj WifiConnectionState none
            [("channel", .int ch), ("ssid", .str ss), ("phy_rate", .int pr)])])
      [("wifi_connection_state", .dict [("phy_rate", .int v10)]),
       ("api", .apiRef 99)]).2 =
      .obj ProtectAdoptableDeviceModel (some (.apiRef napi))
        [("name", .str nm),
         ("wifi_connection_state", .obj WifiConnectionState none
            [("channel", .int ch), ("ssid", .str ss), ("phy_rate", .int v10)])] := by
  cases debug <;> rfl

/-! ## C6: receiver mutation in debug-mode `update_from_dict` -/

/-- `update_from_dictF` on an object, decomposed into its stages. -/
theorem update_from_dictF_stages (fuel : Nat) (debug : Bool) (cls : ClassDesc)
    (api : Option Value) (attrs : List (String × Value)) (data : NDict) :
    update_from_dictF (fuel + 1) debug (.obj cls api attrs) data =
      (let ad := (_get_protect_objs cls).foldl
         (updStep (update_from_dictF fuel debug)) (attrs, data)
       let attrs2 := ad.1
       let data2 := ad.2
       let data2 := if data2.mem "api" then data2.pop "api" else data2
       let mutated := Value.obj cls api attrs2
       if debug then (mutated, pydCopy mutated data2)
       else
         let new_data := objDict [] attrs2
         let new_data := data2.foldl (fun nd kv => NDict.set nd kv.1 kv.2) new_data
         let new_data := NDict.set new_data "api"
           (match api with | some a => a | none => .null)
         (mutated, constructF (fuel + 1) cls new_data)) := rfl

/-- The nested-merge fold is the identity when the delta holds none of the
nested-object keys. -/
theorem updFold_frame (recur : Value → NDict → Value × Value)
    (pairs : List (String × ClassDesc)) (attrs : List (String × Value))
    (data : NDict) (h : ∀ p ∈ pairs, data.mem p.1 = false) :
    pairs.foldl (updStep recur) (attrs, data) = (attrs, data) := by
  induction pairs with
  | nil => rfl
  | cons p rest ih =>
    have hstep : updStep recur (attrs, data) p = (attrs, data) := by
      unfold updStep
      simp [h p (List.mem_cons_self _ _)]
    rw [List.foldl_cons, hstep]
    exact ih (fun q hq => h q (List.mem_cons_of_mem _ hq))

/-- C6 counterexample: the claim states that in debug mode
`update_from_dict` does not mutate the receiver. But the merge loop at
lines 349–353 runs before the `is_debug()` branch and reassigns every
nested-object field present in the delta on the receiver via `setattr`:
after updating a `ProtectAdoptableDeviceModel` whose
`wifi_connection_state.phy_rate` is 5 with the delta
`{"wifi_connection_state": {"phy_rate": 10}}` in debug mode, the
receiver's nested `phy_rate` is 10 — the receiver is not unchanged. -/
theorem C6_counterexample_debug_mode_mutates_receiver :
    (update_from_dict true
      (.obj ProtectAdoptableDeviceModel (some (.apiRef 1))
        [("wifi_connection_state", .obj WifiConnectionState none
            [("phy_rate", Value.int 5)])])
      [("wifi_connection_state", .dict [("phy_rate", Value.int 10)])]).1 =
      .obj ProtectAdoptableDeviceModel (some (.apiRef 1))
        [("wifi_connection_state", .obj WifiConnectionState none
            [("phy_rate", Value.int 10)])] ∧
    (update_from_dict true
      (.obj ProtectAdoptableDeviceModel (some (.apiRef 1))
        [("wifi_connection_state", .obj WifiConnectionState none
            [("phy_rate", Value.int 5)])])
      [("wifi_connection_state", .dict [("phy_rate", Value.int 10)])]).1 ≠
      .obj ProtectAdoptableDeviceModel (some (.apiRef 1))
        [("wifi_connection_state", .obj WifiConnectionState none
            [("phy_rate", Value.int 5)])] := by
  refine ⟨rfl, fun h => ?_⟩
  have h2 : Value.obj ProtectAdoptableDeviceModel (some (.apiRef 1))
      [("wifi_connection_state", .obj WifiConnectionState none
          [("phy_rate", Value.int 10)])] =
    Value.obj ProtectAdoptableDeviceModel (some (.apiRef 1))
      [("wifi_connection_state", .obj WifiConnectionState none
          [("phy_rate", Value.int 5)])] := h
  injection h2 with hc ha hl
  injection hl with hhead htail
  injection hhead with hk hv
  injection hv with hc2 ha2 hl2
  injection hl2 with hh2 ht2
  injection hh2 with hk2 hv2
  injection hv2 with hint
  exact absurd hint (by decide)

/-- C6 (amended): in debug mode `update_from_dict` does return a new
object (`self.copy(update=data)`, whose api is the receiver's), but the
receiver is only left intact when the delta contains no nested-object key:
then the merge loop at lines 349–353 never fires, the receiver is
unchanged, and the returned object is the receiver copied with the
remaining delta (minus `"api"`) overlaid. (When the delta does carry a
nested-object key the receiver is mutated; see the counterexample.) -/
theorem C6_amended_debug_frame_without_nested_keys (cls : ClassDesc)
    (api : Option Value) (attrs : List (String × Value)) (data : NDict)
    (h : ∀ p ∈ _get_protect_objs cls, data.mem p.1 = false) :
    (update_from_dict true (.obj cls api attrs) data).1 = .obj cls api attrs ∧
    (update_from_dict true (.obj cls api attrs) data).2 =
      pydCopy (.obj cls api attrs)
        (if data.mem "api" then data.pop "api" else data) := by
  unfold update_from_dict
  rw [show vdepth (Value.obj cls api attrs) + vdepthEntries data + 2
      = (vdepth (Value.obj cls api attrs) + vdepthEntries data + 1) + 1 from rfl,
    update_from_dictF_stages,
    updFold_frame _ _ _ _ h]
  exact ⟨rfl, rfl⟩

/-- Witness for the amended C6 theorem: a scalar-only delta leaves the
receiver unchanged in debug mode. -/
theorem C6_amended_debug_frame_without_nested_keys_witness :
    (∀ p ∈ _get_protect_objs ProtectAdoptableDeviceModel,
        NDict.mem [("name", Value.str "y")] p.1 = false) ∧
    (update_from_dict true
      (.obj ProtectAdoptableDeviceModel (some (.apiRef 1))
        [("name", Value.str "x"),
         ("wifi_connection_state", .obj WifiConnectionState none
            [("phy_rate", Value.int 5)])])
      [("name", Value.str "y")]).1 =
      .obj ProtectAdoptableDeviceModel (some (.apiRef 1))
        [("name", Value.str "x"),
         ("wifi_connection_state", .obj WifiConnectionState none
            [("phy_rate", Value.int 5)])] :=
  ⟨by decide,
   (C6_amended_debug_frame_without_nested_keys ProtectAdoptableDeviceModel
      (some (.apiRef 1))
      [("name", Value.str "x"),
       ("wifi_connection_state", .obj WifiConnectionState none
          [("phy_rate", Value.int 5)])]
      [("name", Value.str "y")] (by decide)).1⟩

/-! ## C9: idempotence of the wire→native conversion on native-form dicts -/

theorem pop_of_not_mem {d : NDict} {k : String} (h : NDict.mem d k = false) :
    NDict.pop d k = d := by
  induction d with
  | nil => rfl
  | cons p d ih =>
    obtain ⟨k0, v0⟩ := p
    simp only [NDict.mem_cons, Bool.or_eq_false_iff, decide_eq_false_iff_not] at h
    simp [h.1, ih h.2]

theorem set_append_of_not_mem {d : NDict} {k : String} (v : Value)
    (h : NDict.mem d k = false) :
    NDict.set d k v = d ++ [(k, v)] := by
  unfold NDict.set
  rw [show (d.any (·.1 = k)) = NDict.mem d k from rfl, h]
  simp

theorem map_setentry_of_not_mem {d : NDict} {k : String} (v : Value)
    (h : NDict.mem d k = false) :
    d.map (fun p => if p.1 = k then (k, v) else p) = d := by
  induction d with
  | nil => rfl
  | cons p d ih =>
    obtain ⟨k0, v0⟩ := p
    simp only [NDict.mem_cons, Bool.or_eq_false_iff, decide_eq_false_iff_not] at h
    simp [h.1, ih h.2]

/-- Writing back the value a key already holds leaves the dict unchanged
(keys assumed distinct, as in a Python dict). -/
theorem set_same {d : NDict} {k : String} {v : Value}
    (hnd : (NDict.keys d).Nodup) (h : NDict.get d k = some v) :
    NDict.set d k v = d := by
  induction d with
  | nil => cases h
  | cons p d ih =>
    obtain ⟨k0, v0⟩ := p
    rw [NDict.set_cons]
    simp only [NDict.keys, List.map_cons, List.nodup_cons] at hnd
    by_cases h0 : k0 = k
    · subst h0
      rw [NDict.get_cons, if_pos rfl] at h
      injection h with h
      subst h
      have hm : NDict.mem d k0 = false := by
        rw [← Bool.not_eq_true]
        intro hmem
        exact hnd.1 ((mem_iff_keys d k0).1 hmem)
      simp [map_setentry_of_not_mem _ hm]
    · simp only [NDict.get_cons, if_neg h0] at h
      simp [h0, ih hnd.2 h]

/-- With distinct keys, every entry is what `get` returns for its key. -/
theorem get_eq_of_mem_nodup {d : NDict} {p : String × Value}
    (hnd : (NDict.keys d).Nodup) (h : p ∈ d) :
    NDict.get d p.1 = some p.2 := by
  induction d with
  | nil => cases h
  | cons q d ih =>
    obtain ⟨k0, v0⟩ := q
    simp only [NDict.keys, List.map_cons, List.nodup_cons] at hnd
    rcases List.mem_cons.1 h with rfl | hd
    · simp
    · have : k0 ≠ p.1 := by
        rintro rfl
        exact hnd.1 (List.mem_map.2 ⟨p, hd, rfl⟩)
      simp [this, ih hnd.2 hd]

theorem entry_of_get {d : NDict} {k : String} {v : Value}
    (h : NDict.get d k = some v) : (k, v) ∈ d := by
  unfold NDict.get at h
  rcases Option.map_eq_some'.1 h with ⟨p, hfind, hv⟩
  have hk : p.1 = k := by simpa using List.find?_some hfind
  have := List.mem_of_find?_eq_some hfind
  obtain ⟨a, b⟩ := p
  cases hk
  cases hv
  exact this

theorem entry_of_mem {d : NDict} {k : String} (h : NDict.mem d k = true) :
    ∃ v, (k, v) ∈ d ∧ NDict.get d k = some v := by
  rw [NDict.mem_eq_isSome] at h
  rcases hg : NDict.get d k with _ | v
  · rw [hg] at h
    cases h
  · exact ⟨v, entry_of_get hg, rfl⟩

theorem vdepth_le_of_mem {d : List (String × Value)} {p : String × Value}
    (h : p ∈ d) : vdepth p.2 ≤ vdepthEntries d := by
  induction d with
  | nil => cases h
  | cons q d ih =>
    obtain ⟨k0, v0⟩ := q
    rcases List.mem_cons.1 h with rfl | hd
    · simp [vdepthEntries]
    · calc vdepth p.2 ≤ vdepthEntries d := ih hd
        _ ≤ vdepthEntries ((k0, v0) :: d) := by simp [vdepthEntries]

/-- The devHook constraint of a well-formed class: if the
`ProtectDeviceModel` scalar pre-hook runs, a declared `"uptime"` field must
be duration-typed (so an already-coerced value is not re-coerced). -/
def uptimeOk (c : ClassDesc) : Bool :=
  match c.fieldOf "uptime" with
  | some (_, .scalar .stimedelta) => true
  | none => true
  | _ => false

/-- Flat well-formedness of a class, as the real model hierarchy satisfies
it: distinct declared names, no field or remap source named `"api"`, remap
sources outside the declared names (they are wire-side spellings), no
list-of-object or dict-of-object fields, and the devHook constraint. -/
def GoodBase (c : ClassDesc) : Bool :=
  decide c.fieldNames.Nodup &&
  !(c.fieldNames.contains "api") &&
  c.remapsOf.all (fun ft => !(c.fieldNames.contains ft.1) && !(ft.1 == "api")) &&
  (_get_protect_lists c).isEmpty &&
  (_get_protect_dicts c).isEmpty &&
  (!c.devHookOf || uptimeOk c)

/-- Well-formedness down to nesting depth `n`: the class and every class
reachable through its single-object fields. -/
def GoodClassF : Nat → ClassDesc → Bool
  | 0, _ => false
  | n + 1, c => GoodBase c && (_get_protect_objs c).all (fun nk => GoodClassF n nk.2)

mutual

/-- The per-entry conditions of the converted Native form: every key is
snake_case-fixed, and every non-`"api"` key is a declared field of the
class whose value is in converted form for the field's type (`a` is the
dict's own back-reference binding, injected into protect children). -/
def NFEntries (c : ClassDesc) (a : Option Value) : List (String × Value) → Bool
  | [] => true
  | (k, v) :: rest =>
    (to_snake_case k == k) &&
    (k == "api" ||
      (match ClassDesc.fieldOf c k with
       | none => false
       | some sft => NFValue sft.2 a v)) &&
    NFEntries c a rest

/-- A value already in converted Native form for a field type: datetime
fields no longer hold epoch integers, duration fields hold a null or a
duration (the `ProtectDeviceModel` pre-hook coerces anything else), IP
fields no longer hold strings, and a dict at a single-object field is a
converted child dict whose `"api"` binding agrees with the parent's
(back-references are `.apiRef` client handles). -/
def NFValue (t : FType) (a : Option Value) (v : Value) : Bool :=
  match t, v with
  | .scalar .sdatetime, .int _ => false
  | .scalar .stimedelta, v => isNullV v || isTimedelta v
  | .scalar .sipv4, .str _ => false
  | .protect kcls, .dict dd =>
    (match a with
     | some (.apiRef m) =>
       (match NDict.get dd "api" with
        | some (.apiRef m2) => m == m2
        | _ => false)
     | some _ => false
     | none => true) &&
    decide (List.Nodup (dd.map (·.1))) &&
    NFEntries kcls (NDict.get dd "api") dd
  | _, _ => true

end

/-- A dict in converted Native form for a class: distinct keys and the
per-entry conditions. -/
def NativeFormD (c : ClassDesc) (d : NDict) : Bool :=
  decide (List.Nodup (d.map (·.1))) && NFEntries c (NDict.get d "api") d

/-- Unpacking `NFEntries` at a member entry. -/
theorem NFEntries_mem {c : ClassDesc} {a : Option Value} :
    ∀ {l : List (String × Value)}, NFEntries c a l = true →
      ∀ p ∈ l, to_snake_case p.1 = p.1 ∧
        (p.1 = "api" ∨ ∃ sft, ClassDesc.fieldOf c p.1 = some sft ∧
          NFValue sft.2 a p.2 = true) := by
  intro l
  induction l with
  | nil => intro _ p hp; cases hp
  | cons q rest ih =>
    intro h p hp
    obtain ⟨k, v⟩ := q
    rw [NFEntries, Bool.and_eq_true, Bool.and_eq_true] at h
    obtain ⟨⟨hsf, hfield⟩, hrest⟩ := h
    rcases List.mem_cons.1 hp with rfl | hmem
    · refine ⟨by simpa using hsf, ?_⟩
      rw [Bool.or_eq_true] at hfield
      rcases hfield with hapi | hval
      · exact Or.inl (by simpa using hapi)
      · rcases hfo : ClassDesc.fieldOf c k with _ | sft
        · rw [hfo] at hval
          cases hval
        · rw [hfo] at hval
          exact Or.inr ⟨sft, rfl, hval⟩
    · exact ih hrest p hmem

/-- A value in converted form is a fixed point of the scalar coercion. -/
theorem NFValue_convert_fixed {t : FType} {a : Option Value} {v : Value}
    (h : NFValue t a v = true) : convert_unifi_data v t = v := by
  cases t with
  | raising => cases v <;> rfl
  | protect k => cases v <;> rfl
  | scalar sk =>
    cases sk with
    | plain => cases v <;> rfl
    | sdatetime => cases v <;> first | rfl | simp [NFValue] at h
    | stimedelta => cases v <;> first | rfl | simp [NFValue, isNullV, isTimedelta] at h
    | sipv4 => cases v <;> first | rfl | simp [NFValue] at h

/-- A key that is not a `to_snake_case` fixed point cannot occur among
all-fixed keys. -/
theorem mem_false_of_all_snake {d : NDict} (hsf : ∀ p ∈ d, to_snake_case p.1 = p.1)
    {k : String} (hk : to_snake_case k ≠ k) : NDict.mem d k = false := by
  rw [← Bool.not_eq_true]
  intro hm
  obtain ⟨v, hv, _⟩ := entry_of_mem hm
  exact hk (hsf (k, v) hv)

/-- The `ProtectDeviceModel` scalar pre-hook is the identity on a dict with
snake_case-fixed keys whose `"uptime"` value (if any) is already a null or
a duration: the camelCase `"lastSeen"`/`"upSince"` keys cannot occur, and
the `"uptime"` guard fails. -/
theorem pre_noop (d : NDict)
    (hsf : ∀ p ∈ d, to_snake_case p.1 = p.1)
    (hupt : ∀ v, NDict.get d "uptime" = some v → (isNullV v || isTimedelta v) = true) :
    protect_device_model_pre d = d := by
  have hml : NDict.mem d "lastSeen" = false :=
    mem_false_of_all_snake hsf (by decide)
  have hmu : NDict.mem d "upSince" = false :=
    mem_false_of_all_snake hsf (by decide)
  unfold protect_device_model_pre
  rw [show preLastSeen d = d from by simp [preLastSeen, hml],
    show preUpSince d = d from by simp [preUpSince, hmu]]
  unfold preUptime
  rcases hg : NDict.get d "uptime" with _ | v
  · simp [isNullV]
  · have hvt := hupt v hg
    cases hiv : isNullV v <;> cases hit : isTimedelta v <;> simp_all

/-- The remap loop is the identity when no source key is present. -/
theorem applyRemaps_noop (rs : List (String × String)) (d : NDict)
    (h : ∀ fr ∈ rs, NDict.mem d fr.1 = false) :
    applyRemaps rs d = d := by
  induction rs with
  | nil => rfl
  | cons fr rest ih =>
    rw [applyRemaps_cons, h fr (List.mem_cons_self _ _)]
    simp only [Bool.false_eq_true, if_false]
    exact ih (fun q hq => h q (List.mem_cons_of_mem _ hq))

/-- The snake_case loop rotates each processed entry to the end: starting
from `xs ++ ys` and processing the keys of `xs` (all fixed points of
`to_snake_case`, all distinct) yields `ys ++ xs`. -/
theorem snakeFold_rotate : ∀ (xs ys : NDict),
    ((xs ++ ys).map (·.1)).Nodup →
    (∀ p ∈ xs, to_snake_case p.1 = p.1) →
    (NDict.keys xs).foldl
      (fun d k => (d.pop k).set (to_snake_case k) ((d.get k).getD .null))
      (xs ++ ys) = ys ++ xs := by
  intro xs
  induction xs with
  | nil => intro ys _ _; simp [NDict.keys]
  | cons p xs ih =>
    intro ys hnd hsf
    obtain ⟨k0, v0⟩ := p
    have hk0 : to_snake_case k0 = k0 := hsf (k0, v0) (List.mem_cons_self _ _)
    have hnd2 : (k0 :: (xs ++ ys).map (·.1)).Nodup := hnd
    have hnotin : k0 ∉ (xs ++ ys).map (·.1) := (List.nodup_cons.1 hnd2).1
    have hmem : NDict.mem (xs ++ ys) k0 = false := by
      rw [← Bool.not_eq_true]
      intro hm
      exact hnotin ((mem_iff_keys _ _).1 hm)
    have hstep :
        NDict.set (NDict.pop ((k0, v0) :: (xs ++ ys)) k0) (to_snake_case k0)
          ((NDict.get ((k0, v0) :: (xs ++ ys)) k0).getD Value.null) =
          xs ++ (ys ++ [(k0, v0)]) := by
      rw [hk0, NDict.pop_cons, if_pos rfl, pop_of_not_mem hmem, NDict.get_cons,
        if_pos rfl, Option.getD_some, set_append_of_not_mem _ hmem,
        List.append_assoc]
    have hnd3 : ((xs ++ (ys ++ [(k0, v0)])).map (·.1)).Nodup := by
      have hperm : List.Perm ((k0, v0) :: (xs ++ ys)) (xs ++ (ys ++ [(k0, v0)])) := by
        rw [← List.append_assoc]
        exact (List.perm_append_singleton _ _).symm
      exact (hperm.map (·.1)).nodup hnd
    have hrec := ih (ys ++ [(k0, v0)]) hnd3
      (fun q hq => hsf q (List.mem_cons_of_mem _ hq))
    show List.foldl
        (fun d k => NDict.set (NDict.pop d k) (to_snake_case k)
          ((NDict.get d k).getD Value.null))
        ((k0, v0) :: (xs ++ ys)) (k0 :: NDict.keys xs) = ys ++ ((k0, v0) :: xs)
    rw [List.foldl_cons]
    show List.foldl
        (fun d k => NDict.set (NDict.pop d k) (to_snake_case k)
          ((NDict.get d k).getD Value.null))
        (NDict.set (NDict.pop ((k0, v0) :: (xs ++ ys)) k0) (to_snake_case k0)
          ((NDict.get ((k0, v0) :: (xs ++ ys)) k0).getD Value.null))
        (NDict.keys xs) = ys ++ ((k0, v0) :: xs)
    rw [hstep, hrec]
    simp

/-- The snake_case loop is the identity on a dict whose keys are distinct
fixed points of `to_snake_case`. -/
theorem snakeLoop_noop (d : NDict) (hnd : (d.map (·.1)).Nodup)
    (hsf : ∀ p ∈ d, to_snake_case p.1 = p.1) :
    snakeLoop d = d := by
  have := snakeFold_rotate d [] (by simpa using hnd) hsf
  simpa [snakeLoop] using this

/-- The unknown-field-dropping loop is the identity when every processed
entry is `"api"` or a declared field in coercion-fixed form. -/
theorem dropFold_noop (c : ClassDesc) (snap : List (String × Value)) (acc : NDict)
    (hfld : ∀ p ∈ snap, p.1 = "api" ∨
      ∃ sft, c.fieldOf p.1 = some sft ∧ convert_unifi_data p.2 sft.2 = p.2)
    (hget : ∀ p ∈ snap, NDict.get acc p.1 = some p.2)
    (hnd : (NDict.keys acc).Nodup) :
    snap.foldl
      (fun d kv =>
        if kv.1 = "api" then d
        else
          match c.fieldOf kv.1 with
          | none => d.pop kv.1
          | some sft => d.set kv.1 (convert_unifi_data kv.2 sft.2))
      acc = acc := by
  induction snap with
  | nil => rfl
  | cons p rest ih =>
    rw [List.foldl_cons]
    have hstep :
        (if p.1 = "api" then acc
         else
           match c.fieldOf p.1 with
           | none => acc.pop p.1
           | some sft => acc.set p.1 (convert_unifi_data p.2 sft.2)) = acc := by
      by_cases hapi : p.1 = "api"
      · simp [hapi]
      · rcases hfld p (List.mem_cons_self _ _) with h | ⟨sft, hfo, hfix⟩
        · exact absurd h hapi
        · rw [if_neg hapi, hfo]
          simp only
          rw [hfix]
          exact set_same hnd (by simpa using hget p (List.mem_cons_self _ _))
    rw [hstep]
    exact ih (fun q hq => hfld q (List.mem_cons_of_mem _ hq))
      (fun q hq => hget q (List.mem_cons_of_mem _ hq))

/-- `dropLoop` is the identity on a native-form dict. -/
theorem dropLoop_noop (c : ClassDesc) (d : NDict)
    (hfld : ∀ p ∈ d, p.1 = "api" ∨
      ∃ sft, c.fieldOf p.1 = some sft ∧ convert_unifi_data p.2 sft.2 = p.2)
    (hnd : (NDict.keys d).Nodup) :
    dropLoop c d = d :=
  dropFold_noop c d d hfld (fun p hp => get_eq_of_mem_nodup hnd hp) hnd

/-- The child-cleaning loop is the identity when cleaning each present
value returns it unchanged. -/
theorem cleanObjsFold_noop (f : ClassDesc → Value → Value)
    (pairs : List (String × ClassDesc)) (d : NDict)
    (hnd : (NDict.keys d).Nodup)
    (h : ∀ nk ∈ pairs, NDict.mem d nk.1 = true →
      f nk.2 ((NDict.get d nk.1).getD .null) = (NDict.get d nk.1).getD .null) :
    cleanObjsFold f pairs d = d := by
  induction pairs with
  | nil => rfl
  | cons p rest ih =>
    have hstep :
        (if NDict.mem d p.1 then
          NDict.set d p.1 (f p.2 ((NDict.get d p.1).getD .null)) else d) = d := by
      cases hm : NDict.mem d p.1
      · simp
      · obtain ⟨v, hvmem, hvget⟩ := entry_of_mem hm
        have hfix := h p (List.mem_cons_self _ _) hm
        rw [hvget] at hfix
        simp only [Option.getD_some] at hfix
        simp [hm, hvget, hfix, set_same hnd hvget]
    show cleanObjsFold f rest
      (if NDict.mem d p.1 then
        NDict.set d p.1 (f p.2 ((NDict.get d p.1).getD .null)) else d) = d
    rw [hstep]
    exact ih (fun q hq => h q (List.mem_cons_of_mem _ hq))

@[simp] theorem cleanListsFold_nil (f : ClassDesc → List Value → List Value) (d : NDict) :
    cleanListsFold f [] d = d := rfl

@[simp] theorem cleanDictsFold_nil (f : ClassDesc → List (String × Value) → List (String × Value))
    (d : NDict) : cleanDictsFold f [] d = d := rfl

/-- `find?` retrieves a member entry when keys are distinct. -/
theorem find_first_of_nodup {α : Type} : ∀ (l : List (String × α)) (n : String) (x : α),
    (n, x) ∈ l → (l.map (·.1)).Nodup → l.find? (·.1 = n) = some (n, x) := by
  intro l n x h hnd
  induction l with
  | nil => cases h
  | cons q l ih =>
    rcases List.mem_cons.1 h with rfl | hmem
    · exact List.find?_cons_of_pos _ (by simp)
    · have hq : q.1 ≠ n := by
        intro he
        have : n ∈ l.map (·.1) := List.mem_map.2 ⟨(n, x), hmem, rfl⟩
        rw [← he] at this
        exact (List.nodup_cons.1 hnd).1 this
      rw [List.find?_cons_of_neg _ (by simpa using hq)]
      exact ih hmem (List.nodup_cons.1 hnd).2

theorem NFValue_stimedelta (a : Option Value) (v : Value) :
    NFValue (.scalar .stimedelta) a v = (isNullV v || isTimedelta v) := by
  cases v <;> rfl

theorem NFValue_protect (kc : ClassDesc) (a : Option Value) (dd : NDict) :
    NFValue (.protect kc) a (.dict dd) =
      ((match a with
        | some (.apiRef m) =>
          (match NDict.get dd "api" with
           | some (.apiRef m2) => m == m2
           | _ => false)
        | some _ => false
        | none => true) &&
       decide (List.Nodup (dd.map (·.1))) &&
       NFEntries kc (NDict.get dd "api") dd) := rfl

/-- `unifi_dict_to_dictF` at a successor budget, decomposed into stages. -/
theorem unifi_dict_to_dictF_succ (fuel : Nat) (debug : Bool) (c : ClassDesc) (d : NDict) :
    unifi_dict_to_dictF (fuel + 1) debug c d =
      (let data := if c.devHookOf then protect_device_model_pre d else d
       let api := _get_api (data.get "api")
       let data := applyRemaps c.remapsOf data
       let data := snakeLoop data
       let data := if !debug then dropLoop c data else data
       let data := cleanObjsFold
         (fun k v => _clean_protect_obj (unifi_dict_to_dictF fuel debug) k api v)
         (_get_protect_objs c) data
       let data := cleanListsFold
         (fun k items => _clean_protect_obj_list (unifi_dict_to_dictF fuel debug) k api items)
         (_get_protect_lists c) data
       cleanDictsFold
         (fun k entries => _clean_protect_obj_dict (unifi_dict_to_dictF fuel debug) k api entries)
         (_get_protect_dicts c) data) := rfl

/-- The wire→native conversion is the identity on a converted Native-form
dict of a well-formed class, in both modes and at any sufficient budget:
the pre-hook guards all fail, no remap source is present, the snake_case
pass rotates every (already-fixed) key back into place, the coercions are
at fixed points, and each child cleaning re-injects the same back-reference
and recursively converts an already-converted child. -/
theorem native_form_noop : ∀ (fuel : Nat) (debug : Bool) (c : ClassDesc) (d : NDict),
    GoodClassF fuel c = true → NativeFormD c d = true →
    vdepthEntries d < fuel →
    unifi_dict_to_dictF fuel debug c d = d := by
  intro fuel
  induction fuel with
  | zero =>
    intro debug c d hg _ _
    simp [GoodClassF] at hg
  | succ f ih =>
    intro debug c d hg hn hdep
    simp only [GoodClassF, Bool.and_eq_true] at hg
    obtain ⟨hgb, hobjs⟩ := hg
    simp only [GoodBase, Bool.and_eq_true] at hgb
    obtain ⟨⟨⟨⟨⟨hfnd, hfapi⟩, hrem⟩, hlst⟩, hdct⟩, hdev⟩ := hgb
    have hfnd2 : c.fieldNames.Nodup := of_decide_eq_true hfnd
    have hfapi2 : c.fieldNames.contains "api" = false := by simpa using hfapi
    rw [NativeFormD, Bool.and_eq_true] at hn
    obtain ⟨hnd0, hent⟩ := hn
    rw [decide_eq_true_eq] at hnd0
    have hkeys := NFEntries_mem hent
    have hsf : ∀ p ∈ d, to_snake_case p.1 = p.1 := fun p hp => (hkeys p hp).1
    have hknd : (NDict.keys d).Nodup := hnd0
    have fieldOf_mem : ∀ {k : String} {sft : Shape × FType},
        c.fieldOf k = some sft → k ∈ c.fieldNames := by
      intro k sft hfo
      by_contra hk
      rw [(fieldOf_eq_none_iff c k).2 hk] at hfo
      cases hfo
    have hlst2 : _get_protect_lists c = [] := by
      rcases hl : _get_protect_lists c with _ | ⟨a, l⟩
      · rfl
      · rw [hl] at hlst
        simp at hlst
    have hdct2 : _get_protect_dicts c = [] := by
      rcases hl : _get_protect_dicts c with _ | ⟨a, l⟩
      · rfl
      · rw [hl] at hdct
        simp at hdct
    have h1 : (if c.devHookOf then protect_device_model_pre d else d) = d := by
      cases hdh : c.devHookOf
      · simp
      · rw [if_pos rfl]
        apply pre_noop d hsf
        intro v hv
        have hentry := entry_of_get hv
        have hx : "uptime" = "api" ∨ ∃ sft, c.fieldOf "uptime" = some sft ∧
            NFValue sft.2 (NDict.get d "api") v = true := (hkeys ("uptime", v) hentry).2
        rcases hx with hapi | ⟨sft, hfo, hval⟩
        · exact absurd hapi (by decide)
        · have hok : uptimeOk c = true := by
            rw [hdh] at hdev
            simpa using hdev
          unfold uptimeOk at hok
          rw [hfo] at hok
          obtain ⟨sh, ft⟩ := sft
          cases ft with
          | raising => exact Bool.noConfusion hok
          | protect k2 => exact Bool.noConfusion hok
          | scalar sk =>
            cases sk with
            | plain => exact Bool.noConfusion hok
            | sdatetime => exact Bool.noConfusion hok
            | sipv4 => exact Bool.noConfusion hok
            | stimedelta =>
              rw [NFValue_stimedelta] at hval
              exact hval
    have h2 : applyRemaps c.remapsOf d = d := by
      apply applyRemaps_noop
      intro fr hfr
      have hfr2 := List.all_eq_true.1 hrem fr hfr
      rw [Bool.and_eq_true] at hfr2
      rw [← Bool.not_eq_true]
      intro hm
      obtain ⟨v, hvmem, _⟩ := entry_of_mem hm
      have hx : fr.1 = "api" ∨ ∃ sft, c.fieldOf fr.1 = some sft ∧
          NFValue sft.2 (NDict.get d "api") v = true := (hkeys (fr.1, v) hvmem).2
      rcases hx with hapi | ⟨sft, hfo, _⟩
      · have : fr.1 ≠ "api" := by simpa using hfr2.2
        exact this hapi
      · have hmemf : fr.1 ∈ c.fieldNames := fieldOf_mem hfo
        have hcc : c.fieldNames.contains fr.1 = true := List.elem_eq_true_of_mem hmemf
        have hcf : c.fieldNames.contains fr.1 = false := by simpa using hfr2.1
        rw [hcf] at hcc
        exact Bool.noConfusion hcc
    have h3 : snakeLoop d = d := snakeLoop_noop d hnd0 hsf
    have h4 : (if !debug then dropLoop c d else d) = d := by
      cases debug
      · rw [show (if (!false : Bool) then dropLoop c d else d) = dropLoop c d from by simp]
        apply dropLoop_noop c d _ hknd
        intro p hp
        rcases (hkeys p hp).2 with hapi | ⟨sft, hfo, hval⟩
        · exact Or.inl hapi
        · exact Or.inr ⟨sft, hfo, NFValue_convert_fixed hval⟩
      · simp
    have h5 : cleanObjsFold
        (fun k v => _clean_protect_obj (unifi_dict_to_dictF f debug) k
          (_get_api (NDict.get d "api")) v)
        (_get_protect_objs c) d = d := by
      apply cleanObjsFold_noop _ _ _ hknd
      intro nk hnk hm
      obtain ⟨n, kc⟩ := nk
      have hm2 : NDict.mem d n = true := hm
      show _clean_protect_obj (unifi_dict_to_dictF f debug) kc
        (_get_api (NDict.get d "api")) ((NDict.get d n).getD Value.null) =
        (NDict.get d n).getD Value.null
      obtain ⟨v0, hv0mem, hv0get⟩ := entry_of_mem hm2
      rw [hv0get]
      simp only [Option.getD_some]
      have hx : n = "api" ∨ ∃ sft, c.fieldOf n = some sft ∧
          NFValue sft.2 (NDict.get d "api") v0 = true := (hkeys (n, v0) hv0mem).2
      rcases hx with hapi | ⟨sft, hfo, hval⟩
      · have hmemf : n ∈ c.fieldNames := protect_name_mem_fieldNames (Or.inl hnk)
        rw [hapi] at hmemf
        have hcc : c.fieldNames.contains "api" = true := List.elem_eq_true_of_mem hmemf
        rw [hfapi2] at hcc
        exact Bool.noConfusion hcc
      · rcases mem_spst_aux c.fieldsOf ([], [], []) n kc (Or.inl hnk) with habs | ⟨sh, hmemfield⟩
        · simp at habs
        · have hfo2 : c.fieldOf n = some (sh, FType.protect kc) := by
            unfold ClassDesc.fieldOf
            rw [find_first_of_nodup c.fieldsOf n (sh, FType.protect kc) hmemfield hfnd2]
            rfl
          rw [hfo] at hfo2
          injection hfo2 with he
          subst he
          cases v0 with
          | dict dd =>
            rw [NFValue_protect, Bool.and_eq_true, Bool.and_eq_true] at hval
            obtain ⟨⟨hapi2, hddnd⟩, hddent⟩ := hval
            have hddnd2 : (NDict.keys dd).Nodup := of_decide_eq_true hddnd
            have hgood : GoodClassF f kc = true := List.all_eq_true.1 hobjs (n, kc) hnk
            have hnf : NativeFormD kc dd = true := by
              rw [NativeFormD, Bool.and_eq_true]
              exact ⟨hddnd, hddent⟩
            have hdepth : vdepthEntries dd < f := by
              have hle := vdepth_le_of_mem hv0mem
              have he2 : vdepth (Value.dict dd) = 1 + vdepthEntries dd := rfl
              rw [he2] at hle
              omega
            rw [show _get_api (NDict.get d "api") = NDict.get d "api" from rfl]
            rcases hha : NDict.get d "api" with _ | av
            · show Value.dict (unifi_dict_to_dictF f debug kc dd) = Value.dict dd
              rw [ih debug kc dd hgood hnf hdepth]
            · rw [hha] at hapi2
              cases av with
              | apiRef m =>
                rcases hdda : NDict.get dd "api" with _ | w
                · rw [hdda] at hapi2
                  exact Bool.noConfusion hapi2
                · rw [hdda] at hapi2
                  cases w with
                  | apiRef m2 =>
                    have hm2 : m = m2 := by simpa using hapi2
                    subst hm2
                    show Value.dict (unifi_dict_to_dictF f debug kc
                      (NDict.set dd "api" (Value.apiRef m))) = Value.dict dd
                    rw [set_same hddnd2 hdda, ih debug kc dd hgood hnf hdepth]
                  | null => exact Bool.noConfusion hapi2
                  | str a => exact Bool.noConfusion hapi2
                  | int a => exact Bool.noConfusion hapi2
                  | bool a => exact Bool.noConfusion hapi2
                  | datetime a => exact Bool.noConfusion hapi2
                  | timedelta a => exact Bool.noConfusion hapi2
                  | ipv4 a => exact Bool.noConfusion hapi2
                  | dict a => exact Bool.noConfusion hapi2
                  | list a => exact Bool.noConfusion hapi2
                  | obj a b e => exact Bool.noConfusion hapi2
              | null => exact Bool.noConfusion hapi2
              | str a => exact Bool.noConfusion hapi2
              | int a => exact Bool.noConfusion hapi2
              | bool a => exact Bool.noConfusion hapi2
              | datetime a => exact Bool.noConfusion hapi2
              | timedelta a => exact Bool.noConfusion hapi2
              | ipv4 a => exact Bool.noConfusion hapi2
              | dict a => exact Bool.noConfusion hapi2
              | list a => exact Bool.noConfusion hapi2
              | obj a b e => exact Bool.noConfusion hapi2
          | null => rfl
          | str a => rfl
          | int a => rfl
          | bool a => rfl
          | datetime a => rfl
          | timedelta a => rfl
          | ipv4 a => rfl
          | list a => rfl
          | obj a b e => rfl
          | apiRef a => rfl
    rw [unifi_dict_to_dictF_succ]
    simp only [h1]
    rw [h2, h3, h4, h5, hlst2, hdct2]
    rfl

/-- C9: the wire→native conversion is idempotent. For a well-formed class
and a dict already in the converted Native form — snake_case-fixed distinct
keys that are declared fields (or the back-reference key), values at scalar
fields already coerced, values at single-object fields already-converted
child dicts carrying the same back-reference — a further application of
`unifi_dict_to_dict` is a no-op in both modes: no second
camelCase-to-snake_case transformation, remap, scalar coercion or child
cleaning alters any key or value. -/
theorem C9_conversion_idempotent_on_native_form (debug : Bool) (c : ClassDesc)
    (d : NDict) (hg : GoodClassF (vdepthEntries d + 1) c = true)
    (hn : NativeFormD c d = true) :
    unifi_dict_to_dict debug c d = d :=
  native_form_noop (vdepthEntries d + 1) debug c d hg hn (Nat.lt_succ_self _)

/-- A converted Native-form dict for `ProtectAdoptableDeviceModel`, with a
nested converted child dict and a back-reference binding. -/
def nativeExampleDict : NDict :=
  [("model", .str "bridge"),
   ("uptime", .timedelta 60000),
   ("last_seen", .datetime 1700000000000),
   ("wifi_connection_state", .dict
      [("api", .apiRef 7), ("phy_rate", .int 866), ("ssid", .str "net")]),
   ("api", .apiRef 7)]

/-- Witness for C9 at a concrete converted dict. -/
theorem C9_conversion_idempotent_on_native_form_witness :
    GoodClassF (vdepthEntries nativeExampleDict + 1) ProtectAdoptableDeviceModel = true ∧
    NativeFormD ProtectAdoptableDeviceModel nativeExampleDict = true ∧
    unifi_dict_to_dict false ProtectAdoptableDeviceModel nativeExampleDict =
      nativeExampleDict :=
  ⟨by decide, by decide,
   C9_conversion_idempotent_on_native_form false ProtectAdoptableDeviceModel
     nativeExampleDict (by decide) (by decide)⟩

end PyUFP
